import Mathlib

/-!
Verification development for the CSV ingestion / cleaning / RFM / CLTV /
market-basket analysis pipeline of `src/utils/dataProcessing.ts`.

Strings are modelled as `List Char`; JavaScript numbers as `ℚ` (exact
rational arithmetic; `NaN`/`undefined` values are modelled with `Option`
where they can arise).  TypeScript optional boolean fields are modelled as
`Bool` with default `false` (JS truthiness does not distinguish `undefined`
from `false`).
-/

set_option allowUnsafeReducibility true in
attribute [semireducible] Rat.add Rat.mul Rat.inv Rat.sub Rat.ofScientific

/-! ## String utilities (JS semantics) -/

/-- The whitespace characters stripped by `String.prototype.trim`
(ASCII whitespace plus NBSP and BOM; other Unicode space separators do not
occur in the inputs considered here). -/
def jsWsChars : List Char := [' ', '\t', '\n', '\r', '\x0B', '\x0C', ' ', '﻿']

/-- Whether `c` is JS whitespace. -/
def isJsWs (c : Char) : Bool := jsWsChars.contains c

/-- JS `String.prototype.trimStart`. -/
def jsTrimLeft (l : List Char) : List Char := l.dropWhile isJsWs

/-- JS `String.prototype.trimEnd`. -/
def jsTrimRight (l : List Char) : List Char := (l.reverse.dropWhile isJsWs).reverse

/-- JS `String.prototype.trim`. -/
def jsTrim (l : List Char) : List Char := jsTrimLeft (jsTrimRight l)

/-- JS `String.prototype.split(sep)` for a single-character separator:
every occurrence separates, empty segments are kept, and splitting the
empty string yields one empty segment. -/
def splitSep (sep : Char) : List Char → List (List Char)
  | [] => [[]]
  | c :: r =>
    if c = sep then [] :: splitSep sep r
    else
      match splitSep sep r with
      | [] => [[c]]
      | s :: ss => (c :: s) :: ss

/-- JS `Array.prototype.join(sep)`. -/
def joinSep (sep : List Char) : List (List Char) → List Char
  | [] => []
  | [x] => x
  | x :: xs => x ++ sep ++ joinSep sep xs

/-- JS `String.prototype.split(/\r\n|\n|\r/)`: the regex alternation prefers
`\r\n`, so a CRLF pair is one separator. -/
def splitLineSeps : List Char → List (List Char)
  | [] => [[]]
  | '\r' :: '\n' :: r => [] :: splitLineSeps r
  | '\n' :: r => [] :: splitLineSeps r
  | '\r' :: r => [] :: splitLineSeps r
  | c :: r =>
    match splitLineSeps r with
    | [] => [[c]]
    | s :: ss => (c :: s) :: ss

/-- JS `String.prototype.replace(/\r\n/g, '\n')`: global left-to-right
non-overlapping replacement. -/
def replaceCRLF : List Char → List Char
  | [] => []
  | '\r' :: '\n' :: r => '\n' :: replaceCRLF r
  | c :: r => c :: replaceCRLF r

/-- Decimal rendering of a natural number, as JS string interpolation
produces for the (small, non-negative) counts that occur here. -/
def natToChars (n : Nat) : List Char := Nat.toDigits 10 n

/-! ## CSV row tokenizer (`parseCsvRow`)

The `while` loop of the source walks the row with a cursor and a quoting
mode; here the same algorithm is a character-by-character state machine
folded over the row.  `seek` is the loop head (between fields, trimming
leading spaces/tabs; `started` records whether any whitespace of the
current iteration has been consumed, which decides whether a trailing
field is emitted at end of input), `unq`/`quo` are the unquoted/quoted
field modes, and `quoSeen` is the one-character lookahead after a `"`
inside a quoted field (escaped-quote versus closing-quote). -/

/-- Tokenizer mode. -/
inductive CsvMode where
  | seek (started : Bool)
  | unq (acc : List Char)
  | quo (acc : List Char)
  | quoSeen (acc : List Char)
deriving DecidableEq

/-- One character step of the tokenizer. -/
def csvStep (st : List (List Char) × CsvMode) (c : Char) : List (List Char) × CsvMode :=
  match st.2 with
  | .seek _ =>
    if c = ' ' ∨ c = '\t' then (st.1, .seek true)
    else if c = '"' then (st.1, .quo [])
    else if c = ',' then (st.1 ++ [[]], .seek false)
    else (st.1, .unq [c])
  | .unq acc =>
    if c = ',' then (st.1 ++ [jsTrim acc], .seek false)
    else (st.1, .unq (acc ++ [c]))
  | .quo acc =>
    if c = '"' then (st.1, .quoSeen acc)
    else (st.1, .quo (acc ++ [c]))
  | .quoSeen acc =>
    if c = '"' then (st.1, .quo (acc ++ ['"']))
    else if c = ',' then (st.1 ++ [acc], .seek false)
    else if c = ' ' ∨ c = '\t' then (st.1 ++ [acc], .seek true)
    else (st.1 ++ [acc], .unq [c])

/-- Flush the tokenizer state at end of input. -/
def csvFinish (st : List (List Char) × CsvMode) : List (List Char) :=
  match st.2 with
  | .seek started => if started then st.1 ++ [[]] else st.1
  | .unq acc => st.1 ++ [jsTrim acc]
  | .quo acc => st.1 ++ [acc]
  | .quoSeen acc => st.1 ++ [acc]

/-- The check `row.trim().endsWith(',')`. -/
def endsWithComma (l : List Char) : Bool :=
  match (jsTrim l).reverse with
  | c :: _ => c = ','
  | [] => false

/-- The `parseCsvRow` of the source: tokenize one physical CSV line, with a
final extra empty field when the trimmed row ends in a comma. -/
def parseCsvRow (row : List Char) : List (List Char) :=
  csvFinish (row.foldl csvStep ([], .seek false)) ++ (if endsWithComma row then [[]] else [])

/-- The export quoting rule shared by `exportToCsv` and
`fixEmptyHeadersInCsvText`: wrap in double quotes when the field contains a
comma, a double quote or a newline, doubling internal quotes. -/
def escQuotes : List Char → List Char
  | [] => []
  | c :: r => if c = '"' then '"' :: '"' :: escQuotes r else c :: escQuotes r

/-- Serialize one field under the export quoting rule. -/
def serializeField (f : List Char) : List Char :=
  if ',' ∈ f ∨ '"' ∈ f ∨ '\n' ∈ f then '"' :: (escQuotes f ++ ['"']) else f

example : parseCsvRow (("a, b ,c").data) = [("a").data, ("b").data, ("c").data] := by decide
example : parseCsvRow (("a,\"b,\"\"x\",c").data) = [("a").data, ("b,\"x").data, ("c").data] := by decide
example : parseCsvRow (("a,b,").data) = [("a").data, ("b").data, []] := by decide
example : parseCsvRow (("a,  ").data) = [("a").data, [], []] := by decide
example : parseCsvRow (("\"a\" x,y").data) = [("a").data, ("x").data, ("y").data] := by decide
example : parseCsvRow [] = [] := by decide
example : serializeField (("a\"b").data) = ("\"a\"\"b\"").data := by decide

/-! ## Ingestion parser: data model and error messages -/

/-- A parsed data row: ordered mapping from header name to cell value
(the JS object built by `headers.forEach((header, index) => obj[header] = values[index] || '')`;
headers are unique at that point, so the object is the ordered zip). -/
abbrev RawRecord := List (List Char × List Char)

/-- Build a `RawRecord` from equal-length header and value lists. -/
def mkRecord (headers values : List (List Char)) : RawRecord := headers.zip values

/-- Result of either CSV parser.  The TS optional fields `hasEmptyHeaders`,
`truncated` default to `false`; `rowCount` is `none` when absent. -/
structure CSVValidationResult where
  data : List RawRecord
  errors : List (List Char)
  hasEmptyHeaders : Bool := false
  truncated : Bool := false
  rowCount : Option Nat := none
deriving DecidableEq

/-- Message for a header row with fewer than 4 columns. -/
def tooFewColumnsMsg (found : Nat) : List Char :=
  ("File must contain at least 4 columns for analysis (found ").data
    ++ natToChars found ++ (").").data

/-- Message for empty column headers. -/
def emptyHeadersMsg : List Char :=
  ("CSV contains one or more empty column headers. You can attempt to fix this automatically.").data

/-- Message for duplicate column headers. -/
def dupHeadersMsg (dups : List (List Char)) : List Char :=
  ("Duplicate headers found: ").data ++ joinSep ((", ").data) dups
    ++ (". Please ensure all column headers are unique.").data

/-- Message for a data row whose field count differs from the header count. -/
def badRowMsg (expected found : Nat) : List Char :=
  ("Found a row with an incorrect number of columns. Expected ").data
    ++ natToChars expected ++ ((", but found ").data) ++ natToChars found
    ++ ((". This may indicate a file corruption or encoding issue.").data)

/-- Streaming-parser message for an unparsable/empty file. -/
def emptyFileStreamMsg : List Char := ("The CSV file is empty or could not be parsed.").data

/-- In-memory-parser message for a file with fewer than two non-blank lines. -/
def emptyFileTextMsg : List Char := ("The CSV file is empty or contains only a header row.").data

/-! ## Streaming parser (`parseAndValidateCSV`)

The byte stream is modelled as its full decoded text: the source's chunk
buffering only reassembles split lines, so a single chunk exhibits the same
line sequence.  The loop state and per-line processing are explicit; the
early `return` statements become `Except.error`. -/

/-- Loop state of the streaming parser. -/
structure StreamState where
  headers : List (List Char)
  isHeaderProcessed : Bool
  data : List RawRecord
  rowCount : Nat
deriving DecidableEq

/-- Initial streaming state. -/
def initState : StreamState := ⟨[], false, [], 0⟩

/-- The streaming duplicate-header scan
`headers.filter(h => (headerSet.size === headerSet.add(h.trim()).size))`:
a header is collected (untrimmed) when its trimmed form was already seen;
the seen set grows by each trimmed header. -/
def streamDupsAux (seen : List (List Char)) : List (List Char) → List (List Char)
  | [] => []
  | h :: t =>
    if jsTrim h ∈ seen then h :: streamDupsAux seen t
    else streamDupsAux (seen ++ [jsTrim h]) t

/-- Duplicate headers as reported by the streaming parser. -/
def streamDups (headers : List (List Char)) : List (List Char) :=
  streamDupsAux [] headers

/-- Process one complete line of the stream. -/
def streamLine (rowLimit : Nat) (s : StreamState) (line : List Char) :
    Except CSVValidationResult StreamState :=
  if jsTrim line = [] then .ok s
  else if s.isHeaderProcessed = false then
    let headers := parseCsvRow line
    if headers.length < 4 then
      .error { data := [], errors := [tooFewColumnsMsg headers.length] }
    else if headers.any (fun h => jsTrim h = []) then
      .error { data := [], errors := [emptyHeadersMsg], hasEmptyHeaders := true }
    else if streamDups headers ≠ [] then
      .error { data := [], errors := [dupHeadersMsg (streamDups headers)] }
    else .ok { s with headers := headers, isHeaderProcessed := true }
  else
    let values := parseCsvRow line
    if values.length = s.headers.length then
      let s2 : StreamState :=
        { s with data := s.data ++ [mkRecord s.headers values], rowCount := s.rowCount + 1 }
      if s2.rowCount ≥ rowLimit then
        .error { data := s2.data, errors := [], truncated := true, rowCount := some s2.rowCount }
      else .ok s2
    else if s.rowCount < 10 then
      .error { data := [], errors := [badRowMsg s.headers.length values.length] }
    else if s.rowCount ≥ rowLimit then
      .error { data := s.data, errors := [], truncated := true, rowCount := some s.rowCount }
    else .ok s

/-- Fold `streamLine` over the complete lines. -/
def streamLines (rowLimit : Nat) (s : StreamState) :
    List (List Char) → Except CSVValidationResult StreamState
  | [] => .ok s
  | l :: ls =>
    match streamLine rowLimit s l with
    | .error r => .error r
    | .ok s2 => streamLines rowLimit s2 ls

/-- The streaming `parseAndValidateCSV`: split the text on `\r\n|\n|\r`; the segment after
the last separator is the buffer handled after the loop (appended only when
non-blank, the header was processed, the limit is not reached, and its field
count matches). -/
def parseAndValidateCSV (text : List Char) (rowLimit : Nat) : CSVValidationResult :=
  let segs := splitLineSeps text
  let body := segs.dropLast
  let buf := segs.getLastD []
  match streamLines rowLimit initState body with
  | .error r => r
  | .ok s =>
    let s2 : StreamState :=
      if jsTrim buf ≠ [] ∧ s.isHeaderProcessed = true ∧ s.rowCount < rowLimit then
        let values := parseCsvRow buf
        if values.length = s.headers.length then
          { s with data := s.data ++ [mkRecord s.headers values] }
        else s
      else s
    if s2.isHeaderProcessed = false ∧ s2.data = [] then
      { data := [], errors := [emptyFileStreamMsg] }
    else { data := s2.data, errors := [], rowCount := some s2.data.length }

/-! ## In-memory parser (`parseAndValidateCSVFromText`) -/

/-- The in-memory parser's line list: trim the whole text, normalize CRLF,
split on `\n`, drop blank lines. -/
def memLines (text : List Char) : List (List Char) :=
  (splitSep '\n' (replaceCRLF (jsTrim text))).filter (fun l => !(jsTrim l).isEmpty)

/-- The in-memory duplicate/empty-header scan: walks the headers tracking
the set of trimmed headers seen, the deduplicated list of trimmed
duplicates, and whether any header trims to empty. -/
def textDupAux (seen dups : List (List Char)) (hasEmpty : Bool) :
    List (List Char) → List (List Char) × Bool
  | [] => (dups, hasEmpty)
  | h :: t =>
    let tr := jsTrim h
    let he := hasEmpty || decide (tr = [])
    if tr ∈ seen then
      textDupAux seen (if tr ∈ dups then dups else dups ++ [tr]) he t
    else textDupAux (seen ++ [tr]) dups he t

/-- The in-memory `parseAndValidateCSVFromText`: identical row handling over the
materialized line list; header errors are pushed (in order: too-few-columns,
empty headers, duplicates) and all reported together. -/
def parseAndValidateCSVFromText (text : List Char) : CSVValidationResult :=
  let lines := memLines text
  if lines.length < 2 then { data := [], errors := [emptyFileTextMsg] }
  else
    let headers := parseCsvRow (lines.headD [])
    let e1 := if headers.length < 4 then [tooFewColumnsMsg headers.length] else []
    let scan := textDupAux [] [] false headers
    let e2 := if scan.2 then [emptyHeadersMsg] else []
    let e3 := if scan.1 ≠ [] then [dupHeadersMsg scan.1] else []
    let errors := e1 ++ e2 ++ e3
    if errors ≠ [] then { data := [], errors := errors, hasEmptyHeaders := scan.2 }
    else
      let data := (lines.drop 1).filterMap (fun l =>
        let values := parseCsvRow l
        if values.length = headers.length then some (mkRecord headers values) else none)
      { data := data, errors := [], hasEmptyHeaders := false, rowCount := some data.length }

/-! ## Header repair (`fixEmptyHeadersInCsvText`) -/

/-- Placeholder name for the 1-based column index `i`. -/
def columnPlaceholder (i : Nat) : List Char := ("Column_").data ++ natToChars i

/-- Replace headers that trim to empty with `Column_<index>` (1-based). -/
def fixHeadersFrom (i : Nat) : List (List Char) → List (List Char)
  | [] => []
  | h :: t => (if jsTrim h = [] then columnPlaceholder i else h) :: fixHeadersFrom (i + 1) t

/-- The `fixEmptyHeadersInCsvText` repair: trim, normalize CRLF, split on `\n`,
re-serialize the repaired header line with the export quoting rule, and
re-join with `\n`.  (`String.prototype.split` never yields an empty array,
so the `lines.length === 0` early return of the source is unreachable; it
is kept for faithfulness.) -/
def fixEmptyHeadersInCsvText (text : List Char) : List Char :=
  match splitSep '\n' (replaceCRLF (jsTrim text)) with
  | [] => text
  | headerLine :: rest =>
    let headers := parseCsvRow headerLine
    let fixedHeaders := fixHeadersFrom 1 headers
    let newHeaderLine := joinSep ([',']) (fixedHeaders.map serializeField)
    joinSep (['\n']) (newHeaderLine :: rest)

example :
    parseAndValidateCSV (("A,B,C,D\nw,x,y,z\n").data) 100 =
      { data := [mkRecord [("A").data, ("B").data, ("C").data, ("D").data]
                          [("w").data, ("x").data, ("y").data, ("z").data]],
        errors := [], rowCount := some 1 } := by decide
example :
    parseAndValidateCSVFromText (("A,B,C,D\nw,x,y,z\n").data) =
      { data := [mkRecord [("A").data, ("B").data, ("C").data, ("D").data]
                          [("w").data, ("x").data, ("y").data, ("z").data]],
        errors := [], hasEmptyHeaders := false, rowCount := some 1 } := by decide
example :
    (parseAndValidateCSV (("A,B,A\nx,y,z\n").data) 100).errors = [tooFewColumnsMsg 3] := by decide
example :
    (parseAndValidateCSVFromText (("A,B,A\nx,y,z\n").data)).errors
      = [tooFewColumnsMsg 3, dupHeadersMsg [("A").data]] := by decide
example :
    fixEmptyHeadersInCsvText ((",A,B\nx,y  ").data) = ("Column_1,A,B\nx,y").data := by decide
example :
    (parseAndValidateCSV (("A,B,C,D\n1,2,3,4\nx,y").data) 100) =
      { data := [mkRecord [("A").data, ("B").data, ("C").data, ("D").data]
                          [("1").data, ("2").data, ("3").data, ("4").data]],
        errors := [], rowCount := some 1 } := by decide

/-! ## Generic association-list helpers (JS object semantics)

A JS object is modelled as an association list in key-insertion order:
assignment to a fresh key appends, assignment to an existing key replaces
the value in place.  (The JS reordering of integer-like keys is not
modelled; it does not affect any property proved here.) -/

/-- Lookup (`obj[k]`, `undefined` as `none`). -/
def assocGet [DecidableEq κ] (k : κ) : List (κ × β) → Option β
  | [] => none
  | (k2, v) :: t => if k2 = k then some v else assocGet k t

/-- Assignment `obj[k] = f (obj[k])`. -/
def upsertWith [DecidableEq κ] (k : κ) (f : Option β → β) : List (κ × β) → List (κ × β)
  | [] => [(k, f none)]
  | (k2, v) :: t => if k2 = k then (k2, f (some v)) :: t else (k2, v) :: upsertWith k f t

/-- Stable descending sort by a rational key, as `Array.prototype.sort`
with comparator `(a, b) => key(b) - key(a)` produces. -/
def sortDescBy (f : α → ℚ) (l : List α) : List α :=
  List.insertionSort (fun a b => f b ≤ f a) l

/-! ## Cleaner (`cleanData`)

`parseFloat` and date parsing (`new Date` plus the `M/D/Y` fallback) are
environment-defined JS primitives; they are taken as parameters
`parseNum : List Char → Option ℚ` (with `none` for `NaN`; non-finite
results do not matter for the properties proved) and
`parseDate : List Char → Option Int` (epoch milliseconds, `none` for
`null`/invalid). -/

/-- Column-role mapping supplied by the caller. -/
structure ColumnMapping where
  customerId : List Char
  invoiceId : List Char
  invoiceDate : List Char
  quantity : List Char
  unitPrice : List Char
  description : List Char
deriving DecidableEq

/-- The four cleaning switches. -/
structure CleanOptions where
  removeNullCustomerId : Bool
  removeNegativeQuantity : Bool
  removeDuplicateTransactions : Bool
  handleMissingUnitPrice : Bool
deriving DecidableEq

/-- Field access `t[key]` (`undefined` and `''` both give `[]`; they are
indistinguishable by the truthiness and `parseFloat` uses below). -/
def getField (t : RawRecord) (k : List Char) : List Char :=
  (assocGet k t).getD []

/-- The comparison `x > 0` on a JS number that may be `NaN` (`NaN > 0` is false). -/
def posCheck : Option ℚ → Bool
  | some q => decide (0 < q)
  | none => false

/-- NaN-propagating multiplication. -/
def optMul : Option ℚ → Option ℚ → Option ℚ
  | some a, some b => some (a * b)
  | _, _ => none

/-- Duplicate removal by full structural equality (`JSON.stringify` key),
keeping the first occurrence. -/
def dedupFirst (seen : List RawRecord) : List RawRecord → List RawRecord
  | [] => []
  | t :: ts => if t ∈ seen then dedupFirst seen ts else t :: dedupFirst (seen ++ [t]) ts

/-- A cleaned transaction: the spread of the raw record with the derived
canonical fields. -/
structure CleanTransaction where
  base : RawRecord
  CustomerID : List Char
  InvoiceID : List Char
  Description : List Char
  InvoiceDate : Option Int
  Quantity : Option ℚ
  UnitPrice : Option ℚ
  TotalPrice : Option ℚ
deriving DecidableEq

/-- The `cleanData` pipeline: dedupe, the three value filters, then derivation and the
final validity filter. -/
def cleanData (parseNum : List Char → Option ℚ) (parseDate : List Char → Option Int)
    (transactions : List RawRecord) (mapping : ColumnMapping) (options : CleanOptions) :
    List CleanTransaction :=
  let c1 := if options.removeDuplicateTransactions then dedupFirst [] transactions
            else transactions
  let c2 := if options.removeNullCustomerId then
              c1.filter (fun t => !(getField t mapping.customerId).isEmpty)
            else c1
  let c3 := if options.removeNegativeQuantity then
              c2.filter (fun t => posCheck (parseNum (getField t mapping.quantity)))
            else c2
  let c4 := if options.handleMissingUnitPrice then
              c3.filter (fun t => posCheck (parseNum (getField t mapping.unitPrice)))
            else c3
  (c4.map (fun t =>
    { base := t
      CustomerID := getField t mapping.customerId
      InvoiceID := getField t mapping.invoiceId
      Description := getField t mapping.description
      InvoiceDate := parseDate (getField t mapping.invoiceDate)
      Quantity := parseNum (getField t mapping.quantity)
      UnitPrice := parseNum (getField t mapping.unitPrice)
      TotalPrice := optMul (parseNum (getField t mapping.quantity))
                           (parseNum (getField t mapping.unitPrice)) : CleanTransaction })).filter
    (fun t => t.InvoiceDate.isSome && posCheck t.TotalPrice
              && !t.InvoiceID.isEmpty && !t.Description.isEmpty)

/-! ## Quintile rank (`getQuintile`) -/

/-- The comparison `v <= arr[i]` where the index may be out of bounds (`undefined`
comparisons are false in JS). -/
def leUndef (v : ℚ) : Option ℚ → Bool
  | some q => decide (v ≤ q)
  | none => false

/-- The `getQuintile` rank: thresholds at `floor(n·k/5)` for `k = 1..4`. -/
def getQuintile (value : ℚ) (sortedArr : List ℚ) : Nat :=
  if leUndef value sortedArr[sortedArr.length / 5]? then 1
  else if leUndef value sortedArr[sortedArr.length * 2 / 5]? then 2
  else if leUndef value sortedArr[sortedArr.length * 3 / 5]? then 3
  else if leUndef value sortedArr[sortedArr.length * 4 / 5]? then 4
  else 5

/-! ## CLTV model (`calculateCLTV`) -/

/-- One customer's RFM record (fields as in `types.ts`). -/
structure RFMData where
  CustomerID : List Char
  Recency : ℚ
  Frequency : ℚ
  Monetary : ℚ
  R_Score : Nat
  F_Score : Nat
  M_Score : Nat
  RFM_Score : List Char
  Segment : List Char
deriving DecidableEq

/-- Per-customer CLTV output record. -/
structure CustomerCLTVDetail where
  CustomerID : List Char
  CLTV : ℚ
  AvgOrderValue : ℚ
  PurchaseFrequency : ℚ
  Segment : List Char
deriving DecidableEq

/-- Per-segment CLTV output record. -/
structure CLTVData where
  Segment : List Char
  CustomerCount : Nat
  AvgCLTV : ℚ
deriving DecidableEq

/-- The `calculateCLTV` model: segment grouping, churn derivation
(`churnRateOverride ?? (1 - repeatRate)`), per-customer details and
per-segment summaries (sorted descending by `AvgCLTV`). -/
def calculateCLTV (rfmData : List RFMData) (profitMargin discountRate : ℚ)
    (churnRateOverride : Option ℚ) : List CLTVData × List CustomerCLTVDetail :=
  let segmentData := rfmData.foldl (fun acc r =>
    upsertWith r.Segment (fun o =>
      match o with
      | none => ([r.Monetary], [r.Frequency], (1 : Nat))
      | some (ms, fs, c) => (ms ++ [r.Monetary], fs ++ [r.Frequency], c + 1)) acc) []
  let totalCustomers := rfmData.length
  let repeatCustomers := (rfmData.filter (fun r => decide (1 < r.Frequency))).length
  let retentionRate : ℚ :=
    if 0 < totalCustomers then (repeatCustomers : ℚ) / (totalCustomers : ℚ) else 0
  let baseChurnRate : ℚ := 1 - retentionRate
  let effectiveChurnRate := churnRateOverride.getD baseChurnRate
  let customerDetails := rfmData.map (fun r =>
    let avgOrderValue : ℚ := if 0 < r.Frequency then r.Monetary / r.Frequency else 0
    let purchaseFrequency := r.Frequency
    let denominator := effectiveChurnRate + discountRate
    let cltv : ℚ :=
      if denominator ≤ 0 then avgOrderValue * purchaseFrequency * profitMargin * 100
      else avgOrderValue * purchaseFrequency / denominator * profitMargin
    { CustomerID := r.CustomerID, CLTV := cltv, AvgOrderValue := avgOrderValue,
      PurchaseFrequency := purchaseFrequency, Segment := r.Segment : CustomerCLTVDetail })
  let segmentSummary := segmentData.map (fun kv =>
    let totalMonetary := kv.2.1.foldl (· + ·) (0 : ℚ)
    let totalFrequency := kv.2.2.1.foldl (· + ·) (0 : ℚ)
    let c : Nat := kv.2.2.2
    let avgOrderValue : ℚ := if 0 < totalFrequency then totalMonetary / totalFrequency else 0
    let purchaseFrequency : ℚ := if 0 < c then totalFrequency / (c : ℚ) else 0
    let denominator := effectiveChurnRate + discountRate
    if denominator ≤ 0 then
      { Segment := kv.1, CustomerCount := c,
        AvgCLTV := avgOrderValue * purchaseFrequency * profitMargin * 100 : CLTVData }
    else
      { Segment := kv.1, CustomerCount := c,
        AvgCLTV := avgOrderValue * purchaseFrequency / denominator * profitMargin : CLTVData })
  (sortDescBy (fun x => x.AvgCLTV) segmentSummary, customerDetails)

/-! ## Market basket engine (`calculateMBA`) -/

/-- A transaction as consumed by the basket engine (the two fields it
reads). -/
structure BasketTx where
  InvoiceID : List Char
  Description : List Char
deriving DecidableEq

/-- A frequent 1-itemset. -/
structure FrequentItem where
  item : List Char
  support : ℚ
deriving DecidableEq

/-- A directional association rule. -/
structure AssociationRule where
  antecedent : List Char
  consequent : List Char
  support : ℚ
  confidence : ℚ
  lift : ℚ
deriving DecidableEq

/-- The basket-engine result. -/
structure MBAData where
  rules : List AssociationRule
  frequentItems : List FrequentItem
deriving DecidableEq

/-- JS `Set.prototype.add`: append if not present. -/
def addToBasketSet (d : List Char) (s : List (List Char)) : List (List Char) :=
  if d ∈ s then s else s ++ [d]

/-- Group transactions by `InvoiceID` into baskets of distinct
descriptions. -/
def buildBaskets (ts : List BasketTx) : List (List Char × List (List Char)) :=
  ts.foldl (fun acc t => upsertWith t.InvoiceID (fun o => addToBasketSet t.Description (o.getD [])) acc) []

/-- Occurrence counts of each item over the baskets. -/
def itemCounts (baskets : List (List (List Char))) : List (List Char × Nat) :=
  baskets.foldl (fun acc basket => basket.foldl (fun a i => upsertWith i (fun o => o.getD 0 + 1) a) acc) []

/-- Lexicographic comparison by code unit, as the default
`Array.prototype.sort` comparator orders strings.  (The UTF-16
surrogate-order quirk for astral characters is not modelled.) -/
def lexLe : List Char → List Char → Bool
  | [], _ => true
  | _ :: _, [] => false
  | a :: as, b :: bs => if a.val < b.val then true else if b.val < a.val then false else lexLe as bs

/-- Sorting `[a, b].sort()` for two strings. -/
def sortPair (a b : List Char) : List Char × List Char :=
  if lexLe a b then (a, b) else (b, a)

/-- The joined key `pair.join('|')`. -/
def pairKey (p : List Char × List Char) : List Char := p.1 ++ '|' :: p.2

/-- All index pairs `i < j` of a list, in the nested-loop order of the
source. -/
def allPairs : List α → List (α × α)
  | [] => []
  | a :: t => t.map (fun b => (a, b)) ++ allPairs t

/-- The `candidatePairs` object: for each `i < j` pair of frequent item
names, the sorted pair under its joined key (a later pair with a colliding
key replaces the stored value in place). -/
def candidateObj (names : List (List Char)) : List (List Char × ((List Char × List Char) × Nat)) :=
  (allPairs names).foldl (fun acc p =>
    let sp := sortPair p.1 p.2
    upsertWith (pairKey sp) (fun _ => (sp, 0)) acc) []

/-- Number of baskets containing both components of a pair. -/
def countPair (baskets : List (List (List Char))) (p : List Char × List Char) : Nat :=
  baskets.countP (fun b => decide (p.1 ∈ b) && decide (p.2 ∈ b))

/-- Rule generation for one `frequentItemsets` entry: only keys that split
into more than one `'|'`-separated part generate the two directional
rules; a missing item lookup makes the JS confidence/lift `NaN`, which
fails both threshold comparisons, so no rule is kept.  (Item counts are
at least 1 and the basket count at least 1 whenever an entry exists, so no
division by zero occurs on reachable inputs.) -/
def genRules (supports : List (List Char × Nat)) (n minConfidence minLift : ℚ)
    (kv : List Char × Nat) : List AssociationRule :=
  let itemset := splitSep '|' kv.1
  if 1 < itemset.length then
    let itemsetSupport : ℚ := (kv.2 : ℚ) / n
    let aName := itemset.getD 0 []
    let bName := itemset.getD 1 []
    match assocGet aName supports, assocGet bName supports with
    | some ca, some cb =>
      let supportA := (ca : ℚ) / n
      let supportB := (cb : ℚ) / n
      let confidenceAtoB := itemsetSupport / supportA
      let confidenceBtoA := itemsetSupport / supportB
      let liftAtoB := confidenceAtoB / supportB
      let liftBtoA := confidenceBtoA / supportA
      (if minConfidence ≤ confidenceAtoB ∧ minLift ≤ liftAtoB then
        [{ antecedent := aName, consequent := bName, support := itemsetSupport,
           confidence := confidenceAtoB, lift := liftAtoB : AssociationRule }] else [])
      ++ (if minConfidence ≤ confidenceBtoA ∧ minLift ≤ liftBtoA then
        [{ antecedent := bName, consequent := aName, support := itemsetSupport,
           confidence := confidenceBtoA, lift := liftBtoA : AssociationRule }] else [])
    | _, _ => []
  else []

/-- The basket list (`transactionList` of the source). -/
def mbaBaskets (transactions : List BasketTx) : List (List (List Char)) :=
  (buildBaskets transactions).map (·.2)

/-- The basket count `numTransactions` as a rational. -/
def mbaN (transactions : List BasketTx) : ℚ := ((mbaBaskets transactions).length : ℚ)

/-- The `itemSupports` object (raw counts). -/
def mbaSupports (transactions : List BasketTx) : List (List Char × Nat) :=
  itemCounts (mbaBaskets transactions)

/-- The frequent 1-itemset list: supports at least `minSupport`, sorted
descending by support. -/
def mbaFrequentItems (transactions : List BasketTx) (minSupport : ℚ) : List FrequentItem :=
  sortDescBy (fun i => i.support)
    (((mbaSupports transactions).map
        (fun kv => { item := kv.1, support := (kv.2 : ℚ) / mbaN transactions : FrequentItem })).filter
      (fun i => decide (minSupport ≤ i.support)))

/-- The `frequentItemNames` list. -/
def mbaNames (transactions : List BasketTx) (minSupport : ℚ) : List (List Char) :=
  (mbaFrequentItems transactions minSupport).map (·.item)

/-- The `candidatePairs` object after the counting pass. -/
def mbaCounted (transactions : List BasketTx) (minSupport : ℚ) :
    List (List Char × ((List Char × List Char) × Nat)) :=
  (candidateObj (mbaNames transactions minSupport)).map
    (fun kv => (kv.1, (kv.2.1, countPair (mbaBaskets transactions) kv.2.1)))

/-- The frequent-pair entries of `frequentItemsets` (step 6 of the source). -/
def mbaPairSets (transactions : List BasketTx) (minSupport : ℚ) : List (List Char × Nat) :=
  ((mbaCounted transactions minSupport).filter
      (fun kv => decide (minSupport ≤ (kv.2.2 : ℚ) / mbaN transactions))).foldl
    (fun acc kv => upsertWith (pairKey kv.2.1) (fun _ => kv.2.2) acc) []

/-- The `frequentItemsets` object after the unconditional re-add of every 1-item. -/
def mbaItemsets (transactions : List BasketTx) (minSupport : ℚ) : List (List Char × Nat) :=
  (mbaSupports transactions).foldl (fun acc kv => upsertWith kv.1 (fun _ => kv.2) acc)
    (mbaPairSets transactions minSupport)

/-- The generated rules before the final sort. -/
def mbaRules (transactions : List BasketTx) (minSupport minConfidence minLift : ℚ) :
    List AssociationRule :=
  (mbaItemsets transactions minSupport).foldl
    (fun acc kv => acc ++ genRules (mbaSupports transactions) (mbaN transactions)
      minConfidence minLift kv) []

/-- The full `calculateMBA`. -/
def calculateMBA (transactions : List BasketTx) (minSupport minConfidence minLift : ℚ) : MBAData :=
  { rules := sortDescBy (fun r => r.lift) (mbaRules transactions minSupport minConfidence minLift),
    frequentItems := mbaFrequentItems transactions minSupport }

example :
    calculateMBA
      [⟨("1").data, ("Bread").data⟩, ⟨("1").data, ("Milk").data⟩,
       ⟨("2").data, ("Bread").data⟩, ⟨("2").data, ("Milk").data⟩]
      (1/2) (1/2) 1 =
    { rules := [⟨("Bread").data, ("Milk").data, 1, 1, 1⟩, ⟨("Milk").data, ("Bread").data, 1, 1, 1⟩],
      frequentItems := [⟨("Bread").data, 1⟩, ⟨("Milk").data, 1⟩] } := by decide

/-! # Claims -/

/-! ## C4: quintile rank -/

/-- Modelled from the spec (§4.5 step 4): thresholds at indices
`floor(n·k/5)` for `k = 1..4`; rank 1–4 by inclusive comparison against the
thresholds, else 5. -/
def quintileOfSpec (v : ℚ) (S : List ℚ) : Nat :=
  let n := S.length
  if v ≤ S.getD (n * 1 / 5) 0 then 1
  else if v ≤ S.getD (n * 2 / 5) 0 then 2
  else if v ≤ S.getD (n * 3 / 5) 0 then 3
  else if v ≤ S.getD (n * 4 / 5) 0 then 4
  else 5

/-- Modelled from the spec (§4.6): the claim's effective churn —
`churnOverride` when provided (including 0), else
`1 − count(Frequency > 1) / totalCustomers`. -/
def effectiveChurnOfSpec (rfm : List RFMData) (churnOverride : Option ℚ) : ℚ :=
  match churnOverride with
  | some c => c
  | none => 1 - ((rfm.filter (fun r => decide (1 < r.Frequency))).length : ℚ) / (rfm.length : ℚ)

/-- Modelled from the spec (§4.6): the claim's per-customer CLTV record —
`avgOrderValue = Monetary / Frequency` (0 if `Frequency` is 0),
`denominator = effectiveChurn + discountRate`; if `denominator ≤ 0` then
`CLTV = avgOrderValue × Frequency × profitMargin × 100`, else
`CLTV = (avgOrderValue × Frequency / denominator) × profitMargin`. -/
def cltvDetailOfSpec (effectiveChurn profitMargin discountRate : ℚ) (r : RFMData) :
    CustomerCLTVDetail :=
  let avgOrderValue : ℚ := if r.Frequency = 0 then 0 else r.Monetary / r.Frequency
  let denominator := effectiveChurn + discountRate
  let cltv : ℚ :=
    if denominator ≤ 0 then avgOrderValue * r.Frequency * profitMargin * 100
    else avgOrderValue * r.Frequency / denominator * profitMargin
  ⟨r.CustomerID, cltv, avgOrderValue, r.Frequency, r.Segment⟩

/-- C4: for every value and non-empty ascending-sorted array, `getQuintile`
equals the spec's threshold chain, and for `S = [1,…,10]` and `v = 10` the
rank is 5. -/
theorem c4_getQuintile_matches_spec (v : ℚ) (S : List ℚ) (hne : S ≠ [])
    (_hs : S.Sorted (· ≤ ·)) :
    getQuintile v S = quintileOfSpec v S ∧
      getQuintile 10 [1, 2, 3, 4, 5, 6, 7, 8, 9, 10] = 5 := by
  constructor
  · have hn : 0 < S.length := List.length_pos.mpr hne
    have h1 : S.length * 1 / 5 < S.length := Nat.div_lt_of_lt_mul (by omega)
    have h2 : S.length * 2 / 5 < S.length := Nat.div_lt_of_lt_mul (by omega)
    have h3 : S.length * 3 / 5 < S.length := Nat.div_lt_of_lt_mul (by omega)
    have h4 : S.length * 4 / 5 < S.length := Nat.div_lt_of_lt_mul (by omega)
    have hv : ∀ i, i < S.length → leUndef v S[i]? = decide (v ≤ S.getD i 0) := by
      intro i hi
      rw [List.getElem?_eq_getElem hi]
      rw [List.getD_eq_getElem _ _ hi]
      rfl
    have e1 : S.length * 1 / 5 = S.length / 5 := by rw [Nat.mul_one]
    unfold getQuintile quintileOfSpec
    rw [← e1] at *
    rw [hv _ h1, hv _ h2, hv _ h3, hv _ h4]
    by_cases c1 : v ≤ S.getD (S.length * 1 / 5) 0 <;>
      by_cases c2 : v ≤ S.getD (S.length * 2 / 5) 0 <;>
        by_cases c3 : v ≤ S.getD (S.length * 3 / 5) 0 <;>
          by_cases c4 : v ≤ S.getD (S.length * 4 / 5) 0 <;>
            simp [c1, c2, c3, c4]
  · decide

/-- Witness for C4 at a concrete sorted array. -/
theorem c4_witness :
    getQuintile 3 [1, 2, 3, 4, 5] = quintileOfSpec 3 [1, 2, 3, 4, 5] :=
  (c4_getQuintile_matches_spec 3 [1, 2, 3, 4, 5] (by decide) (by decide)).1

/-! ## C5: per-customer CLTV formula -/

/-- C5: for every RFM record set (`Frequency ≥ 0`, as RFM records have) and
parameters, `calculateCLTV` computes each customer's CLTV exactly by the
spec's formula, with the degenerate `×100` fallback when
`effectiveChurn + discountRate ≤ 0` and the override honoured even at 0. -/
theorem c5_calculateCLTV_customer_formula (rfm : List RFMData)
    (profitMargin discountRate : ℚ) (churnOverride : Option ℚ)
    (hF : ∀ r ∈ rfm, 0 ≤ r.Frequency) :
    (calculateCLTV rfm profitMargin discountRate churnOverride).2 =
      rfm.map (cltvDetailOfSpec (effectiveChurnOfSpec rfm churnOverride)
                profitMargin discountRate) := by
  have hchurn :
      (churnOverride.getD
        (1 - (if 0 < rfm.length then
          ((rfm.filter (fun r => decide (1 < r.Frequency))).length : ℚ) / (rfm.length : ℚ)
          else 0))) = effectiveChurnOfSpec rfm churnOverride := by
    cases churnOverride with
    | some c => rfl
    | none =>
      simp only [Option.getD_none, effectiveChurnOfSpec]
      by_cases h : 0 < rfm.length
      · simp [h]
      · have h0 : rfm.length = 0 := by omega
        simp [h0]
  unfold calculateCLTV
  simp only []
  rw [hchurn]
  apply List.map_congr_left
  intro r hr
  have hFr := hF r hr
  unfold cltvDetailOfSpec
  by_cases hF0 : r.Frequency = 0
  · simp [hF0]
  · have hpos : 0 < r.Frequency := lt_of_le_of_ne hFr (Ne.symm hF0)
    simp [hF0, hpos]

/-- Witness for C5 at a concrete record set with a zero churn override and
zero discount rate, exercising the degenerate branch. -/
theorem c5_witness :
    (calculateCLTV [⟨("c1").data, 5, 2, 10, 1, 1, 1, ("111").data, ("Lost").data⟩]
        (1/10) 0 (some 0)).2 =
      [cltvDetailOfSpec (effectiveChurnOfSpec
          [⟨("c1").data, 5, 2, 10, 1, 1, 1, ("111").data, ("Lost").data⟩] (some 0))
        (1/10) 0 ⟨("c1").data, 5, 2, 10, 1, 1, 1, ("111").data, ("Lost").data⟩] :=
  c5_calculateCLTV_customer_formula
    [⟨("c1").data, 5, 2, 10, 1, 1, 1, ("111").data, ("Lost").data⟩]
    (1/10) 0 (some 0) (by decide)

/-! ## C6: cleaned-transaction invariant -/

/-- C6: every transaction returned by `cleanData` has a non-NaN positive
`TotalPrice`, a valid `InvoiceDate`, and non-empty `InvoiceID` and
`Description`. -/
theorem c6_cleanData_invariant (parseNum : List Char → Option ℚ)
    (parseDate : List Char → Option Int) (transactions : List RawRecord)
    (mapping : ColumnMapping) (options : CleanOptions) (t : CleanTransaction)
    (ht : t ∈ cleanData parseNum parseDate transactions mapping options) :
    (∃ q, t.TotalPrice = some q ∧ 0 < q) ∧ t.InvoiceDate.isSome = true ∧
      t.InvoiceID ≠ [] ∧ t.Description ≠ [] := by
  unfold cleanData at ht
  simp only [] at ht
  have hp := List.of_mem_filter ht
  have h1 : posCheck t.TotalPrice = true := by
    cases h : posCheck t.TotalPrice <;> simp [h] at hp ⊢
  have hq : ∃ q, t.TotalPrice = some q ∧ 0 < q := by
    cases htp : t.TotalPrice with
    | none => rw [htp] at h1; exact absurd h1 (by simp [posCheck])
    | some q =>
      refine ⟨q, rfl, ?_⟩
      rw [htp] at h1
      simpa [posCheck] using h1
  refine ⟨hq, ?_, ?_, ?_⟩
  · cases h : t.InvoiceDate.isSome <;> simp [h] at hp ⊢
  · have : t.InvoiceID.isEmpty = false := by
      cases h : t.InvoiceID.isEmpty <;> simp [h] at hp ⊢
    simpa [List.isEmpty_iff] using this
  · have : t.Description.isEmpty = false := by
      cases h : t.Description.isEmpty <;> simp [h] at hp ⊢
    simpa [List.isEmpty_iff] using this

/-- Witness for C6: a concrete run whose single surviving transaction the
theorem applies to. -/
theorem c6_witness :
    (∃ q, (CleanTransaction.mk
        [(("Q").data, ("2").data), (("P").data, ("2").data), (("I").data, ("i1").data),
         (("D").data, ("d").data), (("C").data, ("c").data), (("T").data, ("t").data)]
        (("c").data) (("i1").data) (("d").data) (some 0) (some 2) (some 2)
        (some 4)).TotalPrice = some q ∧ 0 < q) ∧
      (CleanTransaction.mk
        [(("Q").data, ("2").data), (("P").data, ("2").data), (("I").data, ("i1").data),
         (("D").data, ("d").data), (("C").data, ("c").data), (("T").data, ("t").data)]
        (("c").data) (("i1").data) (("d").data) (some 0) (some 2) (some 2)
        (some 4)).InvoiceDate.isSome = true ∧
      (CleanTransaction.mk
        [(("Q").data, ("2").data), (("P").data, ("2").data), (("I").data, ("i1").data),
         (("D").data, ("d").data), (("C").data, ("c").data), (("T").data, ("t").data)]
        (("c").data) (("i1").data) (("d").data) (some 0) (some 2) (some 2)
        (some 4)).InvoiceID ≠ [] ∧
      (CleanTransaction.mk
        [(("Q").data, ("2").data), (("P").data, ("2").data), (("I").data, ("i1").data),
         (("D").data, ("d").data), (("C").data, ("c").data), (("T").data, ("t").data)]
        (("c").data) (("i1").data) (("d").data) (some 0) (some 2) (some 2)
        (some 4)).Description ≠ [] :=
  c6_cleanData_invariant (fun _ => some 2) (fun _ => some 0)
    [[(("Q").data, ("2").data), (("P").data, ("2").data), (("I").data, ("i1").data),
      (("D").data, ("d").data), (("C").data, ("c").data), (("T").data, ("t").data)]]
    ⟨("C").data, ("I").data, ("T").data, ("Q").data, ("P").data, ("D").data⟩
    ⟨false, false, false, false⟩ _ (by decide)

/-! ## C7: tokenizer round-trip -/

/-- Folding the tokenizer over escaped quoted content stays in quoted mode
and accumulates the original content. -/
theorem csvQuoFold (f : List Char) : ∀ fields acc,
    List.foldl csvStep (fields, .quo acc) (escQuotes f) = (fields, .quo (acc ++ f)) := by
  induction f with
  | nil => intro fields acc; simp [escQuotes]
  | cons c t ih =>
    intro fields acc
    by_cases hc : c = '"'
    · subst hc
      have e : escQuotes ('"' :: t) = '"' :: '"' :: escQuotes t := by simp [escQuotes]
      rw [e, List.foldl_cons, List.foldl_cons]
      have s1 : csvStep (fields, .quo acc) '"' = (fields, .quoSeen acc) := by simp [csvStep]
      have s2 : csvStep (fields, .quoSeen acc) '"' = (fields, .quo (acc ++ ['"'])) := by
        simp [csvStep]
      rw [s1, s2, ih]
      simp
    · have e : escQuotes (c :: t) = c :: escQuotes t := by simp [escQuotes, hc]
      rw [e, List.foldl_cons]
      have s1 : csvStep (fields, .quo acc) c = (fields, .quo (acc ++ [c])) := by
        simp [csvStep, hc]
      rw [s1, ih]
      simp

/-- A serialized quoted field does not end in a comma after trimming. -/
theorem endsWithComma_quoted (x : List Char) :
    endsWithComma ('"' :: (x ++ ['"'])) = false := by
  have hq : isJsWs '"' = false := by decide
  have h1 : jsTrimRight ('"' :: (x ++ ['"'])) = '"' :: (x ++ ['"']) := by
    unfold jsTrimRight
    rw [List.reverse_cons, List.reverse_append]
    simp only [List.reverse_cons, List.reverse_nil, List.nil_append, List.cons_append,
      List.dropWhile_cons, hq]
    simp
  have h2 : jsTrim ('"' :: (x ++ ['"'])) = '"' :: (x ++ ['"']) := by
    unfold jsTrim jsTrimLeft
    rw [h1, List.dropWhile_cons, hq]
    simp
  unfold endsWithComma
  rw [h2, List.reverse_cons, List.reverse_append]
  simp

/-- C7: for every field containing a comma, a double quote, or a newline,
tokenizing its serialization under the export quoting rule yields exactly
the one-element sequence containing the original field. -/
theorem c7_tokenize_serialize_round_trip (f : List Char)
    (h : ',' ∈ f ∨ '"' ∈ f ∨ '\n' ∈ f) :
    parseCsvRow (serializeField f) = [f] := by
  have hser : serializeField f = '"' :: (escQuotes f ++ ['"']) := by
    unfold serializeField
    rw [if_pos h]
  rw [hser]
  unfold parseCsvRow
  rw [endsWithComma_quoted, List.foldl_cons]
  have s0 : csvStep (([], .seek false) : List (List Char) × CsvMode) '"' = ([], .quo []) := by
    simp [csvStep]
  rw [s0, List.foldl_append, csvQuoFold]
  simp only [List.nil_append, List.foldl_cons, List.foldl_nil]
  have s1 : csvStep (([], .quo f) : List (List Char) × CsvMode) '"' = ([], .quoSeen f) := by
    simp [csvStep]
  rw [s1]
  simp [csvFinish]

/-- Witness for C7 at the field `","`. -/
theorem c7_witness : parseCsvRow (serializeField ((",").data)) = [(",").data] :=
  c7_tokenize_serialize_round_trip ((",").data) (by decide)

/-! ## C9: header repair -/

/-- Conditional unfolding of `replaceCRLF` at a non-CR head. -/
theorem replaceCRLF_cons (c : Char) (r : List Char) (hc : c ≠ '\r') :
    replaceCRLF (c :: r) = c :: replaceCRLF r := by
  rw [replaceCRLF.eq_def]
  split
  · simp_all
  · simp_all
  · rename_i h
    injection h with h1 h2
    subst h1; subst h2
    rfl

/-- The normalization `replaceCRLF` is the identity on CR-free text. -/
theorem replaceCRLF_no_cr (l : List Char) (h : '\r' ∉ l) : replaceCRLF l = l := by
  induction l with
  | nil => rfl
  | cons c r ih =>
    have hc : c ≠ '\r' := fun e => h (e ▸ List.mem_cons_self c r)
    rw [replaceCRLF_cons c r hc, ih (fun hr => h (List.mem_cons_of_mem c hr))]

/-- Splitting never returns the empty list. -/
theorem splitSep_ne_nil (sep : Char) (l : List Char) : splitSep sep l ≠ [] := by
  cases l with
  | nil => simp [splitSep]
  | cons c r =>
    unfold splitSep
    by_cases hc : c = sep
    · simp [hc]
    · simp only [hc, if_false]
      split <;> simp

/-- Splitting a separator-free string yields that one segment. -/
theorem splitSep_not_mem (sep : Char) (l : List Char) (h : sep ∉ l) :
    splitSep sep l = [l] := by
  induction l with
  | nil => rfl
  | cons c r ih =>
    have hc : c ≠ sep := fun e => h (e ▸ List.mem_cons_self c r)
    have hr := ih (fun hm => h (List.mem_cons_of_mem c hm))
    unfold splitSep
    simp only [hc, if_false, hr]

/-- Conditional unfolding of `splitSep` at a non-separator head. -/
theorem splitSep_cons_ne (sep c : Char) (r : List Char) (hc : c ≠ sep) :
    splitSep sep (c :: r) =
      match splitSep sep r with
      | [] => [[c]]
      | s :: ss => (c :: s) :: ss := by
  conv_lhs => unfold splitSep
  simp only [hc, if_false]

/-- Splitting at the first separator occurrence. -/
theorem splitSep_append (sep : Char) (h rest : List Char) (hh : sep ∉ h) :
    splitSep sep (h ++ sep :: rest) = h :: splitSep sep rest := by
  induction h with
  | nil => simp [splitSep]
  | cons c t ih =>
    have hc : c ≠ sep := fun e => hh (e ▸ List.mem_cons_self c t)
    have ht := ih (fun hm => hh (List.mem_cons_of_mem c hm))
    simp only [List.cons_append]
    rw [splitSep_cons_ne sep c _ hc, ht]

/-- Joining is a left inverse of splitting. -/
theorem joinSep_splitSep (sep : Char) (l : List Char) :
    joinSep [sep] (splitSep sep l) = l := by
  induction l with
  | nil => rfl
  | cons c r ih =>
    unfold splitSep
    by_cases hc : c = sep
    · subst hc
      simp only [if_pos rfl]
      obtain ⟨s, ss, hss⟩ : ∃ s ss, splitSep c r = s :: ss := by
        cases h : splitSep c r with
        | nil => exact absurd h (splitSep_ne_nil c r)
        | cons s ss => exact ⟨s, ss, rfl⟩
      rw [hss] at ih ⊢
      simpa [joinSep] using ih
    · simp only [hc, if_false]
      obtain ⟨s, ss, hss⟩ : ∃ s ss, splitSep sep r = s :: ss := by
        cases h : splitSep sep r with
        | nil => exact absurd h (splitSep_ne_nil sep r)
        | cons s ss => exact ⟨s, ss, rfl⟩
      rw [hss] at ih ⊢
      cases ss with
      | nil => simpa [joinSep] using ih
      | cons s2 ss2 => simpa [joinSep] using ih

/-- C9 counterexample: on a document whose last line ends in whitespace,
`fixEmptyHeadersInCsvText` changes that line (the whole text is trimmed
first), contradicting the claim that every non-header line is returned
unchanged. -/
theorem c9_counterexample :
    fixEmptyHeadersInCsvText ((",A,B\nx,y  ").data) = (("Column_1,A,B\nx,y").data) ∧
      (("Column_1,A,B\nx,y").data) ≠ (("Column_1,A,B\nx,y  ").data) := by
  constructor
  · decide
  · decide

/-- C9 (amended): for a document that is already whitespace-trimmed and
CR-free and whose first line contains no newline, `fixEmptyHeadersInCsvText`
replaces each header that trims to empty with `Column_<1-based index>`,
re-serializes the header line under the export quoting rule, and returns
the document with only the header line swapped and every other line
unchanged. -/
theorem c9_fixEmptyHeaders_amended (h rest : List Char) (hnl : '\n' ∉ h)
    (hcr : '\r' ∉ (h ++ '\n' :: rest)) (htrim : jsTrim (h ++ '\n' :: rest) = h ++ '\n' :: rest) :
    fixEmptyHeadersInCsvText (h ++ '\n' :: rest) =
      joinSep ([',']) ((fixHeadersFrom 1 (parseCsvRow h)).map serializeField) ++ '\n' :: rest := by
  unfold fixEmptyHeadersInCsvText
  rw [htrim, replaceCRLF_no_cr _ hcr, splitSep_append '\n' h rest hnl]
  simp only []
  obtain ⟨s, ss, hss⟩ : ∃ s ss, splitSep '\n' rest = s :: ss := by
    cases hx : splitSep '\n' rest with
    | nil => exact absurd hx (splitSep_ne_nil '\n' rest)
    | cons s ss => exact ⟨s, ss, rfl⟩
  have hj : joinSep ['\n'] (splitSep '\n' rest) = rest := joinSep_splitSep '\n' rest
  rw [hss] at hj ⊢
  show joinSep ['\n'] (_ :: s :: ss) = _
  have hcc : ∀ (x y : List Char) (ys : List (List Char)),
      joinSep ['\n'] (x :: y :: ys) = x ++ ['\n'] ++ joinSep ['\n'] (y :: ys) := fun _ _ _ => rfl
  rw [hcc, hj]
  simp

/-- Witness for C9 (amended) on a concrete two-line document with one empty
header. -/
theorem c9_witness :
    fixEmptyHeadersInCsvText (((",A,B").data) ++ '\n' :: (("1,2,3").data)) =
      joinSep ([',']) ((fixHeadersFrom 1 (parseCsvRow ((",A,B").data))).map serializeField)
        ++ '\n' :: (("1,2,3").data) :=
  c9_fixEmptyHeaders_amended ((",A,B").data) (("1,2,3").data) (by decide) (by decide) (by decide)

/-! ## C2: streaming row-mismatch policy -/

/-- C2 counterexample: `"A,B,C,D\n1,2,3,4\nx,y"` has a non-blank data line
(`x,y`, 2 fields against 4 headers) with only 1 accepted row so far, yet the
parse does not abort: the mismatched final (unterminated) line is silently
skipped and the one good row is returned without error. -/
theorem c2_counterexample :
    (parseAndValidateCSV (("A,B,C,D\n1,2,3,4\nx,y").data) 100).errors = [] ∧
      (parseAndValidateCSV (("A,B,C,D\n1,2,3,4\nx,y").data) 100).data.length = 1 := by
  constructor
  · decide
  · decide

/-- C2 (amended): for a line followed by a line terminator the claim's
policy holds — matching field count appends the row (subject to the row
limit), a mismatch aborts with the expected/found message when fewer than
10 rows are accepted, and is skipped after 10 — while the final
unterminated segment is appended if it matches and silently skipped
otherwise, regardless of the accepted-row count. -/
theorem c2_streaming_row_policy_amended :
    (∀ (limit : Nat) (s : StreamState) (line : List Char),
      s.isHeaderProcessed = true → jsTrim line ≠ [] →
      ((parseCsvRow line).length = s.headers.length →
        streamLine limit s line =
          (if s.rowCount + 1 ≥ limit then
            .error { data := s.data ++ [mkRecord s.headers (parseCsvRow line)], errors := [],
                     truncated := true, rowCount := some (s.rowCount + 1) }
           else .ok { s with data := s.data ++ [mkRecord s.headers (parseCsvRow line)],
                             rowCount := s.rowCount + 1 })) ∧
      ((parseCsvRow line).length ≠ s.headers.length → s.rowCount < 10 →
        streamLine limit s line =
          .error { data := [], errors := [badRowMsg s.headers.length (parseCsvRow line).length] }) ∧
      ((parseCsvRow line).length ≠ s.headers.length → 10 ≤ s.rowCount →
        streamLine limit s line =
          (if s.rowCount ≥ limit then
            .error { data := s.data, errors := [], truncated := true, rowCount := some s.rowCount }
           else .ok s))) ∧
    (∀ (text : List Char) (limit : Nat) (s : StreamState),
      streamLines limit initState (splitLineSeps text).dropLast = .ok s →
      s.isHeaderProcessed = true → jsTrim ((splitLineSeps text).getLastD []) ≠ [] →
      s.rowCount < limit →
      (parseAndValidateCSV text limit).errors = [] ∧
      (parseAndValidateCSV text limit).data =
        s.data ++
          (if (parseCsvRow ((splitLineSeps text).getLastD [])).length = s.headers.length
           then [mkRecord s.headers (parseCsvRow ((splitLineSeps text).getLastD []))]
           else [])) := by
  constructor
  · intro limit s line hhp hnb
    refine ⟨?_, ?_, ?_⟩
    · intro hlen
      unfold streamLine
      rw [if_neg hnb, hhp]
      simp only [Bool.true_eq_false, if_false, if_pos hlen]
    · intro hlen hlt
      unfold streamLine
      rw [if_neg hnb, hhp]
      simp only [Bool.true_eq_false, if_false, if_neg hlen, if_pos hlt]
    · intro hlen hge
      unfold streamLine
      rw [if_neg hnb, hhp]
      have hlt : ¬ s.rowCount < 10 := by omega
      simp only [Bool.true_eq_false, if_false, if_neg hlen, if_neg hlt]
  · intro text limit s hok hhp hnb hlim
    have hc1 : jsTrim ((splitLineSeps text).getLastD []) ≠ [] ∧
        s.isHeaderProcessed = true ∧ s.rowCount < limit := ⟨hnb, hhp, hlim⟩
    unfold parseAndValidateCSV
    simp only [hok]
    rw [if_pos hc1]
    by_cases hm : (parseCsvRow ((splitLineSeps text).getLastD [])).length = s.headers.length
    · rw [if_pos hm, if_pos hm]
      constructor
      · simp [hhp]
      · simp [hhp]
    · rw [if_neg hm, if_neg hm]
      constructor
      · simp [hhp]
      · simp [hhp]

/-- Witness for C2 (amended): a mismatched complete line with 0 accepted
rows aborts with the expected/found message. -/
theorem c2_witness :
    streamLine 100 ⟨[("A").data, ("B").data, ("C").data, ("D").data], true, [], 0⟩ (("1,2").data) =
      .error { data := [],
               errors := [badRowMsg
                 (⟨[("A").data, ("B").data, ("C").data, ("D").data], true, [], 0⟩
                   : StreamState).headers.length (parseCsvRow (("1,2").data)).length] } :=
  ((c2_streaming_row_policy_amended.1 100
      ⟨[("A").data, ("B").data, ("C").data, ("D").data], true, [], 0⟩
      (("1,2").data) rfl (by decide)).2.1 (by decide) (by decide))

/-! ## C3: duplicate headers with only three columns -/

/-- A blank line leaves the streaming state unchanged. -/
theorem streamLine_blank (limit : Nat) (s : StreamState) (l : List Char)
    (h : jsTrim l = []) : streamLine limit s l = .ok s := by
  unfold streamLine
  rw [if_pos h]

/-- Leading blank lines are skipped by the streaming loop. -/
theorem streamLines_blanks (limit : Nat) (s : StreamState) (blanks rest : List (List Char))
    (hb : ∀ b ∈ blanks, jsTrim b = []) :
    streamLines limit s (blanks ++ rest) = streamLines limit s rest := by
  induction blanks with
  | nil => rfl
  | cons b bs ih =>
    simp only [List.cons_append, streamLines,
      streamLine_blank limit s b (hb b (List.mem_cons_self b bs))]
    exact ih (fun x hx => hb x (List.mem_cons_of_mem b hx))

/-- A header line with fewer than 4 columns aborts with the
too-few-columns message. -/
theorem streamLine_header_too_few (limit : Nat) (s : StreamState) (line : List Char)
    (hhp : s.isHeaderProcessed = false) (hnb : jsTrim line ≠ [])
    (hlen : (parseCsvRow line).length < 4) :
    streamLine limit s line =
      .error { data := [], errors := [tooFewColumnsMsg (parseCsvRow line).length] } := by
  unfold streamLine
  rw [if_neg hnb, hhp]
  simp only [if_pos hlen, if_true]

/-- C3 counterexample: on `"A,B,A\nx,y,z\n"` the streaming parser reports
the too-few-columns error (3 < 4 wins), not a duplicate-header error
listing `"A"`. -/
theorem c3_counterexample :
    (parseAndValidateCSV (("A,B,A\nx,y,z\n").data) 100).errors = [tooFewColumnsMsg 3] ∧
      dupHeadersMsg [("A").data] ∉ (parseAndValidateCSV (("A,B,A\nx,y,z\n").data) 100).errors := by
  constructor
  · decide
  · decide

/-- C3 (amended): for every CSV input whose header row tokenizes to
`["A","B","A"]`, the streaming parser returns zero rows with only the fatal
too-few-columns error (the column-count check precedes duplicate
detection), while the in-memory parser (given at least one further
non-blank line) returns zero rows with the too-few-columns error followed
by the duplicate-header error listing `"A"`. -/
theorem c3_duplicate_headers_amended :
    (∀ (text : List Char) (limit : Nat) (blanks : List (List Char)) (h : List Char)
        (rest : List (List Char)),
      (splitLineSeps text).dropLast = blanks ++ h :: rest →
      (∀ b ∈ blanks, jsTrim b = []) → jsTrim h ≠ [] →
      parseCsvRow h = [("A").data, ("B").data, ("A").data] →
      parseAndValidateCSV text limit = { data := [], errors := [tooFewColumnsMsg 3] }) ∧
    (∀ (text : List Char) (h : List Char) (ds : List (List Char)),
      memLines text = h :: ds → ds ≠ [] →
      parseCsvRow h = [("A").data, ("B").data, ("A").data] →
      parseAndValidateCSVFromText text =
        { data := [], errors := [tooFewColumnsMsg 3, dupHeadersMsg [("A").data]],
          hasEmptyHeaders := false }) := by
  constructor
  · intro text limit blanks h rest hsplit hb hnb hparse
    have herr : streamLine limit initState h =
        .error { data := [], errors := [tooFewColumnsMsg 3] } := by
      have e := streamLine_header_too_few limit initState h rfl hnb (by rw [hparse]; decide)
      rw [hparse] at e
      simpa using e
    unfold parseAndValidateCSV
    simp only [hsplit, streamLines_blanks limit initState blanks (h :: rest) hb,
      streamLines, herr]
  · intro text h ds hmem hds hparse
    unfold parseAndValidateCSVFromText
    rw [hmem]
    have hlen2 : ¬ ((h :: ds).length < 2) := by
      cases ds with
      | nil => exact absurd rfl hds
      | cons d ds2 => simp
    rw [if_neg hlen2]
    have hscan : textDupAux [] [] false [("A").data, ("B").data, ("A").data] =
        ([("A").data], false) := by decide
    simp only [List.headD_cons, hparse, hscan]
    simp

/-- Witness for C3 (amended) on the concrete document `"A,B,A\n1,2,3\n"`. -/
theorem c3_witness :
    parseAndValidateCSV (("A,B,A\n1,2,3\n").data) 50 =
      { data := [], errors := [tooFewColumnsMsg 3] } :=
  c3_duplicate_headers_amended.1 (("A,B,A\n1,2,3\n").data) 50 [] (("A,B,A").data)
    [("1,2,3").data] (by decide) (by intro b hb; cases hb) (by decide) (by decide)

/-! ## C1: streaming versus in-memory parser -/

/-- Regex line splitting never returns the empty list. -/
theorem splitLineSeps_ne_nil (l : List Char) : splitLineSeps l ≠ [] := by
  rw [splitLineSeps.eq_def]
  split
  · simp
  · simp
  · simp
  · simp
  · split <;> simp

/-- Conditional unfolding of `splitLineSeps` at an ordinary character. -/
theorem splitLineSeps_cons_other (c : Char) (r : List Char) (hc : c ≠ '\r') (hc2 : c ≠ '\n') :
    splitLineSeps (c :: r) =
      match splitLineSeps r with
      | [] => [[c]]
      | s :: ss => (c :: s) :: ss := by
  conv_lhs => rw [splitLineSeps.eq_def]
  split
  · simp_all
  · simp_all
  · simp_all
  · simp_all
  · rename_i h
    injection h with h1 h2
    subst h1; subst h2
    rfl

/-- Conditional unfolding of `splitLineSeps` at a newline. -/
theorem splitLineSeps_cons_nl (r : List Char) :
    splitLineSeps ('\n' :: r) = [] :: splitLineSeps r := rfl

/-- On CR-free text the regex line split agrees with splitting on `'\n'`. -/
theorem splitLineSeps_no_cr (l : List Char) (h : '\r' ∉ l) :
    splitLineSeps l = splitSep '\n' l := by
  induction l with
  | nil => rfl
  | cons c r ih =>
    have hc : c ≠ '\r' := fun e => h (e ▸ List.mem_cons_self c r)
    have hr : '\r' ∉ r := fun hm => h (List.mem_cons_of_mem c hm)
    by_cases hn : c = '\n'
    · subst hn
      rw [splitLineSeps_cons_nl, ih hr]
      simp [splitSep]
    · rw [splitLineSeps_cons_other c r hc hn, splitSep_cons_ne '\n' c r hn, ih hr]

/-- Processing one matching data row below the limit. -/
theorem streamLine_match (limit : Nat) (s : StreamState) (line : List Char)
    (hhp : s.isHeaderProcessed = true) (hnb : jsTrim line ≠ [])
    (hm : (parseCsvRow line).length = s.headers.length) (hlim : s.rowCount + 1 < limit) :
    streamLine limit s line =
      .ok { s with data := s.data ++ [mkRecord s.headers (parseCsvRow line)],
                   rowCount := s.rowCount + 1 } := by
  unfold streamLine
  rw [if_neg hnb, hhp]
  simp only [Bool.true_eq_false, if_false, if_pos hm]
  have hge : ¬ (s.rowCount + 1 ≥ limit) := by omega
  rw [if_neg hge]

/-- A header line passing all three checks flips the state to
header-processed. -/
theorem streamLine_header_ok (limit : Nat) (s : StreamState) (line : List Char)
    (hhp : s.isHeaderProcessed = false) (hnb : jsTrim line ≠ [])
    (h4 : ¬ (parseCsvRow line).length < 4)
    (hemp : (parseCsvRow line).any (fun x => decide (jsTrim x = [])) = false)
    (hdup : streamDups (parseCsvRow line) = []) :
    streamLine limit s line =
      .ok { s with headers := parseCsvRow line, isHeaderProcessed := true } := by
  unfold streamLine
  rw [if_neg hnb, hhp]
  simp only [if_pos rfl, if_neg h4, hemp, hdup]
  simp

/-- The streaming loop over data lines with an already-processed header:
blank lines are skipped and each non-blank line (all assumed to match the
header width, with the limit not reached) is appended in order. -/
theorem streamLines_allMatch (limit : Nat) (lines : List (List Char)) :
    ∀ (s : StreamState), s.isHeaderProcessed = true →
    (∀ d ∈ lines.filter (fun l => !(jsTrim l).isEmpty),
      (parseCsvRow d).length = s.headers.length) →
    s.rowCount + (lines.filter (fun l => !(jsTrim l).isEmpty)).length < limit →
    streamLines limit s lines = .ok { s with
      data := s.data ++ (lines.filter (fun l => !(jsTrim l).isEmpty)).map
        (fun d => mkRecord s.headers (parseCsvRow d)),
      rowCount := s.rowCount + (lines.filter (fun l => !(jsTrim l).isEmpty)).length } := by
  induction lines with
  | nil =>
    intro s hhp _ _
    simp [streamLines]
  | cons l ls ih =>
    intro s hhp hmatch hlim
    by_cases hb : jsTrim l = []
    · have hf : (l :: ls).filter (fun x => !(jsTrim x).isEmpty) =
          ls.filter (fun x => !(jsTrim x).isEmpty) := by
        simp [List.filter_cons, hb]
      rw [hf] at hmatch hlim ⊢
      simp only [streamLines, streamLine_blank limit s l hb]
      exact ih s hhp hmatch hlim
    · have hf : (l :: ls).filter (fun x => !(jsTrim x).isEmpty) =
          l :: ls.filter (fun x => !(jsTrim x).isEmpty) := by
        simp [List.filter_cons, List.isEmpty_iff, hb]
      rw [hf] at hmatch hlim ⊢
      have hm : (parseCsvRow l).length = s.headers.length :=
        hmatch l (List.mem_cons_self _ _)
      have hlim1 : s.rowCount + 1 < limit := by
        simp only [List.length_cons] at hlim
        omega
      simp only [streamLines, streamLine_match limit s l hhp hb hm hlim1]
      have hmatch2 : ∀ d ∈ List.filter (fun x => !(jsTrim x).isEmpty) ls,
          (parseCsvRow d).length = s.headers.length :=
        fun d hd => hmatch d (List.mem_cons_of_mem l hd)
      have hlim2 : s.rowCount + 1 +
          (List.filter (fun x => !(jsTrim x).isEmpty) ls).length < limit := by
        simp only [List.length_cons] at hlim
        omega
      rw [ih ({ s with data := s.data ++ [mkRecord s.headers (parseCsvRow l)], rowCount := s.rowCount + 1 }) hhp hmatch2 hlim2]
      have harith : s.rowCount + 1 + (List.filter (fun x => !(jsTrim x).isEmpty) ls).length =
          s.rowCount + ((List.filter (fun x => !(jsTrim x).isEmpty) ls).length + 1) := by
        omega
      simp only [List.map_cons, List.length_cons]
      rw [show ({ s with data := s.data ++ [mkRecord s.headers (parseCsvRow l)], rowCount := s.rowCount + 1 } : StreamState).rowCount + (List.filter (fun x => !(jsTrim x).isEmpty) ls).length = s.rowCount + ((List.filter (fun x => !(jsTrim x).isEmpty) ls).length + 1) from harith]
      simp [List.append_assoc]

/-- The streaming loop from the initial state: leading blanks are skipped,
the first non-blank line is the (valid) header, and the remaining non-blank
lines (matching, below the limit) become the rows. -/
theorem streamLines_fromStart (limit : Nat) (lines : List (List Char)) :
    ∀ (h : List Char) (ds : List (List Char)),
    lines.filter (fun l => !(jsTrim l).isEmpty) = h :: ds →
    ¬ (parseCsvRow h).length < 4 →
    (parseCsvRow h).any (fun x => decide (jsTrim x = [])) = false →
    streamDups (parseCsvRow h) = [] →
    (∀ d ∈ ds, (parseCsvRow d).length = (parseCsvRow h).length) →
    ds.length < limit →
    streamLines limit initState lines =
      .ok { headers := parseCsvRow h, isHeaderProcessed := true,
            data := ds.map (fun d => mkRecord (parseCsvRow h) (parseCsvRow d)),
            rowCount := ds.length } := by
  induction lines with
  | nil => intro h ds hf; simp at hf
  | cons l ls ih =>
    intro h ds hf h4 hemp hdup hmatch hlim
    by_cases hb : jsTrim l = []
    · have hf2 : (l :: ls).filter (fun x => !(jsTrim x).isEmpty) =
          ls.filter (fun x => !(jsTrim x).isEmpty) := by
        simp [List.filter_cons, hb]
      rw [hf2] at hf
      simp only [streamLines, streamLine_blank limit initState l hb]
      exact ih h ds hf h4 hemp hdup hmatch hlim
    · have hf2 : (l :: ls).filter (fun x => !(jsTrim x).isEmpty) =
          l :: ls.filter (fun x => !(jsTrim x).isEmpty) := by
        simp [List.filter_cons, List.isEmpty_iff, hb]
      rw [hf2] at hf
      injection hf with hfh hft
      subst hfh
      simp only [streamLines, streamLine_header_ok limit initState l rfl hb h4 hemp hdup]
      rw [streamLines_allMatch limit ls _ rfl ?_ ?_]
      · rw [hft]
        simp [initState]
      · rw [hft]
        exact hmatch
      · rw [hft]
        simpa [initState] using hlim

/-- A run of width-matching rows is kept wholesale by the in-memory row
loop. -/
theorem filterMap_all_match (H : List (List Char)) (ds : List (List Char))
    (hm : ∀ d ∈ ds, (parseCsvRow d).length = H.length) :
    ds.filterMap (fun l =>
      if (parseCsvRow l).length = H.length then some (mkRecord H (parseCsvRow l)) else none) =
      ds.map (fun d => mkRecord H (parseCsvRow d)) := by
  induction ds with
  | nil => rfl
  | cons d t ih =>
    simp only [List.filterMap_cons, List.map_cons, if_pos (hm d (List.mem_cons_self d t))]
    rw [ih (fun x hx => hm x (List.mem_cons_of_mem d hx))]

/-- C1 counterexample: on the header-only document `"A,B,C,D\n"` (0 valid
data rows, below any positive limit) the streaming parser succeeds with an
empty error list while the in-memory parser reports the
only-a-header-row error. -/
theorem c1_counterexample :
    (parseAndValidateCSV (("A,B,C,D\n").data) 5).errors = [] ∧
      (parseAndValidateCSVFromText (("A,B,C,D\n").data)).errors = [emptyFileTextMsg] ∧
      (parseAndValidateCSV (("A,B,C,D\n").data) 5).data = [] := by
  refine ⟨?_, ?_, ?_⟩
  · decide
  · decide
  · decide

/-- C1 (amended): the two parsers agree — same rows, same (empty) error
list, same `hasEmptyHeaders` — on every whitespace-trimmed CR-free source
whose non-blank lines are a valid header (≥ 4 columns, no empty or
duplicate headers) followed by at least one data row, all data rows
matching the header width, with fewer data rows than the streaming limit. -/
theorem c1_parser_equivalence_amended (text : List Char) (rowLimit : Nat)
    (h : List Char) (ds : List (List Char))
    (hcr : '\r' ∉ text) (htrim : jsTrim text = text)
    (hlines : (splitLineSeps text).filter (fun l => !(jsTrim l).isEmpty) = h :: ds)
    (hds : ds ≠ [])
    (h4 : ¬ (parseCsvRow h).length < 4)
    (hemp : (parseCsvRow h).any (fun x => decide (jsTrim x = [])) = false)
    (hdupS : streamDups (parseCsvRow h) = [])
    (hdupT : textDupAux [] [] false (parseCsvRow h) = ([], false))
    (hmatch : ∀ d ∈ ds, (parseCsvRow d).length = (parseCsvRow h).length)
    (hlim : ds.length < rowLimit) :
    parseAndValidateCSV text rowLimit = parseAndValidateCSVFromText text ∧
      parseAndValidateCSVFromText text =
        { data := ds.map (fun d => mkRecord (parseCsvRow h) (parseCsvRow d)),
          errors := [], hasEmptyHeaders := false, rowCount := some ds.length } := by
  have hmem : parseAndValidateCSVFromText text =
      { data := ds.map (fun d => mkRecord (parseCsvRow h) (parseCsvRow d)),
        errors := [], hasEmptyHeaders := false, rowCount := some ds.length } := by
    have hml : memLines text = h :: ds := by
      unfold memLines
      rw [htrim, replaceCRLF_no_cr text hcr, ← splitLineSeps_no_cr text hcr]
      exact hlines
    unfold parseAndValidateCSVFromText
    rw [hml]
    have hlen2 : ¬ ((h :: ds).length < 2) := by
      cases ds with
      | nil => exact absurd rfl hds
      | cons d t => simp
    rw [if_neg hlen2]
    simp only [List.headD_cons, hdupT, if_neg h4]
    have hdata : List.filterMap (fun l =>
        if (parseCsvRow l).length = (parseCsvRow h).length then
          some (mkRecord (parseCsvRow h) (parseCsvRow l)) else none) (List.drop 1 (h :: ds)) =
        ds.map (fun d => mkRecord (parseCsvRow h) (parseCsvRow d)) := by
      simp only [List.drop_one, List.tail_cons]
      exact filterMap_all_match (parseCsvRow h) ds hmatch
    simp only [List.append_nil, List.nil_append]
    rw [if_neg (by simp)]
    simp only [hdata, List.length_map]
  have hstream : parseAndValidateCSV text rowLimit =
      { data := ds.map (fun d => mkRecord (parseCsvRow h) (parseCsvRow d)),
        errors := [], hasEmptyHeaders := false, rowCount := some ds.length } := by
    obtain ⟨body, buf, hsegs⟩ : ∃ body buf, splitLineSeps text = body ++ [buf] := by
      rcases List.eq_nil_or_concat (splitLineSeps text) with hnil | ⟨body, buf, hc⟩
      · exact absurd hnil (splitLineSeps_ne_nil text)
      · exact ⟨body, buf, by simpa [List.concat_eq_append] using hc⟩
    have hdrop : (splitLineSeps text).dropLast = body := by
      rw [hsegs, List.dropLast_concat]
    have hlast : (splitLineSeps text).getLastD [] = buf := by
      rw [hsegs, List.getLastD_concat]
    have hfsplit : (body.filter (fun l => !(jsTrim l).isEmpty)) ++
        ([buf].filter (fun l => !(jsTrim l).isEmpty)) = h :: ds := by
      rw [← List.filter_append, ← hsegs]
      exact hlines
    unfold parseAndValidateCSV
    by_cases hbuf : jsTrim buf = []
    · have hfb : [buf].filter (fun l => !(jsTrim l).isEmpty) = [] := by
        simp [List.filter_cons, hbuf]
      rw [hfb, List.append_nil] at hfsplit
      have hins := streamLines_fromStart rowLimit body h ds hfsplit h4 hemp hdupS hmatch hlim
      simp only [hdrop, hlast, hins]
      have hc1 : ¬ (jsTrim buf ≠ [] ∧ True ∧ ds.length < rowLimit) := fun hcon => hcon.1 hbuf
      rw [if_neg hc1]
      simp [List.length_map]
    · have hfb : [buf].filter (fun l => !(jsTrim l).isEmpty) = [buf] := by
        simp [List.filter_cons, List.isEmpty_iff, hbuf]
      rw [hfb] at hfsplit
      obtain ⟨ds0, hbody, hds0⟩ : ∃ ds0,
          body.filter (fun l => !(jsTrim l).isEmpty) = h :: ds0 ∧ ds = ds0 ++ [buf] := by
        cases hfbody : body.filter (fun l => !(jsTrim l).isEmpty) with
        | nil =>
          rw [hfbody, List.nil_append] at hfsplit
          injection hfsplit with h1 h2
          exact absurd h2.symm hds
        | cons h2 t =>
          rw [hfbody, List.cons_append] at hfsplit
          injection hfsplit with hh ht
          exact ⟨t, by rw [hh], ht.symm⟩
      have hmatch0 : ∀ d ∈ ds0, (parseCsvRow d).length = (parseCsvRow h).length := by
        intro d hd
        exact hmatch d (by rw [hds0]; exact List.mem_append_left _ hd)
      have hlim0 : ds0.length < rowLimit := by
        have : ds.length = ds0.length + 1 := by rw [hds0]; simp
        omega
      have hins := streamLines_fromStart rowLimit body h ds0 hbody h4 hemp hdupS hmatch0 hlim0
      simp only [hdrop, hlast, hins]
      have hbm : (parseCsvRow buf).length = (parseCsvRow h).length :=
        hmatch buf (by rw [hds0]; exact List.mem_append_right _ (List.mem_cons_self _ _))
      have hcB : (jsTrim buf ≠ [] ∧ True ∧ ds0.length < rowLimit) := ⟨hbuf, trivial, hlim0⟩
      rw [if_pos hcB, if_pos hbm]
      rw [hds0]
      simp [List.map_append, List.length_map, List.length_append]
  exact ⟨hstream.trans hmem.symm, hmem⟩

/-- Witness for C1 (amended) on the concrete document
`"A,B,C,D\n1,2,3,4\n"` with limit 7. -/
theorem c1_witness :
    parseAndValidateCSV (("A,B,C,D\n1,2,3,4").data) 7 =
        parseAndValidateCSVFromText (("A,B,C,D\n1,2,3,4").data) ∧
      parseAndValidateCSVFromText (("A,B,C,D\n1,2,3,4").data) =
        { data := [("1,2,3,4").data].map
            (fun d => mkRecord (parseCsvRow (("A,B,C,D").data)) (parseCsvRow d)),
          errors := [], hasEmptyHeaders := false, rowCount := some [("1,2,3,4").data].length } :=
  c1_parser_equivalence_amended (("A,B,C,D\n1,2,3,4").data) 7 (("A,B,C,D").data)
    [("1,2,3,4").data] (by decide) (by decide) (by decide) (by decide) (by decide)
    (by decide) (by decide) (by decide) (by decide) (by decide)

/-! ## Shared infrastructure for the basket-engine claims (C8, C10) -/

/-- Inserting into a sorted list is monotone with respect to sublists
(for a transitive relation). -/
theorem orderedInsert_sublist_mono {α : Type} (r : α → α → Prop) [DecidableRel r]
    (htrans : ∀ a b c, r a b → r b c → r a c) (a : α) :
    ∀ (M' M : List α), M'.Sublist M → List.Sorted r M →
      (List.orderedInsert r a M').Sublist (List.orderedInsert r a M) := by
  intro M' M hsub
  induction hsub with
  | slnil => intro _; exact List.Sublist.refl _
  | @cons M' M b hsub ih =>
    intro hsort
    have hsM : List.Sorted r M := hsort.of_cons
    by_cases hab : r a b
    · simp only [List.orderedInsert, if_pos hab]
      have hall : ∀ x ∈ M', r a x := by
        intro x hx
        exact htrans a b x hab (List.rel_of_sorted_cons hsort x (hsub.subset hx))
      have heq : List.orderedInsert r a M' = a :: M' := by
        cases M' with
        | nil => rfl
        | cons m t =>
          simp only [List.orderedInsert]
          rw [if_pos (hall m (List.mem_cons_self m t))]
      rw [heq]
      exact List.Sublist.cons₂ a (hsub.trans (List.sublist_cons_self b M))
    · simp only [List.orderedInsert, if_neg hab]
      exact (ih hsM).trans (List.sublist_cons_self b _)
  | @cons₂ M' M b hsub ih =>
    intro hsort
    have hsM : List.Sorted r M := hsort.of_cons
    by_cases hab : r a b
    · simp only [List.orderedInsert, if_pos hab]
      exact List.Sublist.cons₂ a (List.Sublist.cons₂ b hsub)
    · simp only [List.orderedInsert, if_neg hab]
      exact List.Sublist.cons₂ b (ih hsM)

/-- A stable insertion sort of a sublist is a sublist of the sort (for a
total, transitive relation). -/
theorem insertionSort_sublist {α : Type} (r : α → α → Prop) [DecidableRel r]
    (htot : ∀ a b, r a b ∨ r b a) (htrans : ∀ a b c, r a b → r b c → r a c) :
    ∀ (l' l : List α), l'.Sublist l →
      (List.insertionSort r l').Sublist (List.insertionSort r l) := by
  haveI : IsTotal α r := ⟨htot⟩
  haveI : IsTrans α r := ⟨fun a b c => htrans a b c⟩
  intro l' l hsub
  induction hsub with
  | slnil => exact List.Sublist.slnil
  | @cons l' l b hsub ih =>
    simp only [List.insertionSort]
    exact ih.trans (List.sublist_orderedInsert b _)
  | @cons₂ l' l b hsub ih =>
    simp only [List.insertionSort]
    exact orderedInsert_sublist_mono r htrans b _ _ ih (List.sorted_insertionSort r l)

/-- Strengthening the filter predicate refines the filtered list. -/
theorem filter_sublist_of_imp {α : Type} (p q : α → Bool)
    (h : ∀ a, p a = true → q a = true) (l : List α) :
    (l.filter p).Sublist (l.filter q) := by
  have e : l.filter p = (l.filter q).filter p := by
    rw [List.filter_filter]
    apply List.filter_congr
    intro a _
    cases hp : p a with
    | false => simp
    | true => simp [h a hp]
  rw [e]
  exact List.filter_sublist _

/-- Flat-mapping is monotone with respect to sublists. -/
theorem sublist_flatMap {α β : Type} (f : α → List β) :
    ∀ {l' l : List α}, l'.Sublist l → (l'.flatMap f).Sublist (l.flatMap f) := by
  intro l' l hsub
  induction hsub with
  | slnil => exact List.Sublist.slnil
  | @cons l' l b hsub ih =>
    simp only [List.flatMap_cons]
    exact ih.trans (List.sublist_append_right _ _)
  | @cons₂ l' l b hsub ih =>
    simp only [List.flatMap_cons]
    exact List.Sublist.append (List.Sublist.refl _) ih

/-- Accumulating appends is a `bind`. -/
theorem foldl_append_flatMap {α β : Type} (g : α → List β) :
    ∀ (xs : List α) (acc : List β),
      xs.foldl (fun a x => a ++ g x) acc = acc ++ xs.flatMap g := by
  intro xs
  induction xs with
  | nil => intro acc; simp
  | cons x t ih =>
    intro acc
    simp only [List.foldl_cons, List.flatMap_cons, ih, List.append_assoc]

/-- An invariant preserved by every step survives a fold. -/
theorem foldl_preserve_mem {σ γ : Type} (P : σ → Prop) (step : σ → γ → σ) :
    ∀ (xs : List γ), (∀ a x, x ∈ xs → P a → P (step a x)) →
      ∀ acc, P acc → P (xs.foldl step acc) := by
  intro xs
  induction xs with
  | nil => intro _ acc h; exact h
  | cons x t ih =>
    intro hstep acc hacc
    exact ih (fun a y hy => hstep a y (List.mem_cons_of_mem x hy)) _
      (hstep acc x (List.mem_cons_self x t) hacc)

/-- Assignment to a fresh key appends the new entry. -/
theorem upsertWith_fresh {κ β : Type} [DecidableEq κ] (k : κ) (f : Option β → β) :
    ∀ (l : List (κ × β)), k ∉ l.map Prod.fst → upsertWith k f l = l ++ [(k, f none)] := by
  intro l
  induction l with
  | nil => intro _; rfl
  | cons kv t ih =>
    intro h
    obtain ⟨k2, v⟩ := kv
    simp only [List.map_cons, List.mem_cons] at h
    push_neg at h
    unfold upsertWith
    rw [if_neg (fun e => h.1 e.symm), ih h.2]
    rfl

/-- Entries after an assignment: an old entry, the rewritten entry at the
key, or the fresh entry at the key. -/
theorem mem_upsertWith {κ β : Type} [DecidableEq κ] (k : κ) (f : Option β → β) :
    ∀ (l : List (κ × β)) (kv : κ × β), kv ∈ upsertWith k f l →
      kv ∈ l ∨ (kv.1 = k ∧ (kv.2 = f none ∨ ∃ v, (k, v) ∈ l ∧ kv.2 = f (some v))) := by
  intro l
  induction l with
  | nil =>
    intro kv h
    simp only [upsertWith, List.mem_singleton] at h
    subst h
    exact Or.inr ⟨rfl, Or.inl rfl⟩
  | cons kv0 t ih =>
    intro kv h
    obtain ⟨k2, v⟩ := kv0
    unfold upsertWith at h
    by_cases he : k2 = k
    · rw [if_pos he] at h
      rcases List.mem_cons.mp h with h1 | h2
      · subst h1
        exact Or.inr ⟨he, Or.inr ⟨v, he ▸ List.mem_cons_self _ _, rfl⟩⟩
      · exact Or.inl (List.mem_cons_of_mem _ h2)
    · rw [if_neg he] at h
      rcases List.mem_cons.mp h with h1 | h2
      · exact Or.inl (h1 ▸ List.mem_cons_self _ _)
      · rcases ih kv h2 with h3 | h3
        · exact Or.inl (List.mem_cons_of_mem _ h3)
        · rcases h3.2 with h4 | ⟨v2, hv2, he2⟩
          · exact Or.inr ⟨h3.1, Or.inl h4⟩
          · exact Or.inr ⟨h3.1, Or.inr ⟨v2, List.mem_cons_of_mem _ hv2, he2⟩⟩

/-- Keys after an assignment are old keys or the assigned key. -/
theorem keys_upsertWith_subset {κ β : Type} [DecidableEq κ] (k : κ) (f : Option β → β)
    (l : List (κ × β)) (x : κ) (hx : x ∈ (upsertWith k f l).map Prod.fst) :
    x ∈ l.map Prod.fst ∨ x = k := by
  rcases List.mem_map.mp hx with ⟨kv, hkv, hfst⟩
  rcases mem_upsertWith k f l kv hkv with h1 | h2
  · exact Or.inl (hfst ▸ List.mem_map_of_mem Prod.fst h1)
  · exact Or.inr (hfst ▸ h2.1)

/-- Assignment preserves key distinctness. -/
theorem upsertWith_keys_nodup {κ β : Type} [DecidableEq κ] (k : κ) (f : Option β → β) :
    ∀ (l : List (κ × β)), (l.map Prod.fst).Nodup → ((upsertWith k f l).map Prod.fst).Nodup := by
  intro l
  induction l with
  | nil => intro _; simp [upsertWith]
  | cons kv t ih =>
    intro h
    obtain ⟨k2, v⟩ := kv
    simp only [List.map_cons, List.nodup_cons] at h
    unfold upsertWith
    by_cases he : k2 = k
    · rw [if_pos he]
      simp only [List.map_cons, List.nodup_cons]
      exact h
    · rw [if_neg he]
      simp only [List.map_cons, List.nodup_cons]
      refine ⟨?_, ih h.2⟩
      intro hmem
      rcases keys_upsertWith_subset k f t k2 hmem with h1 | h2
      · exact h.1 h1
      · exact he h2

/-- A fold of assignments at pairwise-distinct fresh keys appends the
corresponding entries in order. -/
theorem foldl_upsertWith_fresh {κ β γ : Type} [DecidableEq κ] (keyf : γ → κ) (valf : γ → β) :
    ∀ (ps : List γ) (acc : List (κ × β)),
      (∀ p ∈ ps, keyf p ∉ acc.map Prod.fst) → (ps.map keyf).Nodup →
      ps.foldl (fun a p => upsertWith (keyf p) (fun _ => valf p) a) acc =
        acc ++ ps.map (fun p => (keyf p, valf p)) := by
  intro ps
  induction ps with
  | nil => intro acc _ _; simp
  | cons p t ih =>
    intro acc hfresh hnd
    simp only [List.foldl_cons, List.map_cons]
    rw [upsertWith_fresh _ _ acc (hfresh p (List.mem_cons_self p t))]
    rw [ih (acc ++ [(keyf p, valf p)]) ?_ ?_]
    · simp
    · intro q hq
      simp only [List.map_append, List.mem_append, List.map_cons]
      rintro (h1 | h2)
      · exact hfresh q (List.mem_cons_of_mem p hq) h1
      · simp only [List.map_nil, List.mem_singleton] at h2
        simp only [List.map_cons, List.nodup_cons] at hnd
        exact hnd.1 (h2 ▸ List.mem_map_of_mem keyf hq)
    · exact (List.map_cons keyf p t ▸ hnd).of_cons

/-- The joined pair key always contains the separator. -/
theorem pipe_mem_pairKey (p : List Char × List Char) : '|' ∈ pairKey p := by
  unfold pairKey
  exact List.mem_append_right _ (List.mem_cons_self _ _)

/-- Joined keys of separator-free components are injective. -/
theorem pairKey_inj (a : List Char) : ∀ (b a2 b2 : List Char), '|' ∉ a → '|' ∉ a2 →
    pairKey (a, b) = pairKey (a2, b2) → a = a2 ∧ b = b2 := by
  unfold pairKey
  induction a with
  | nil =>
    intro b a2 b2 _ ha2 h
    cases a2 with
    | nil =>
      simp only [List.nil_append] at h
      exact ⟨rfl, by injection h⟩
    | cons c t =>
      simp only [List.nil_append, List.cons_append] at h
      injection h with h1 h2
      exact absurd (h1 ▸ List.mem_cons_self c t) ha2
  | cons c t ih =>
    intro b a2 b2 ha ha2 h
    cases a2 with
    | nil =>
      simp only [List.nil_append, List.cons_append] at h
      injection h with h1 h2
      exact absurd (h1.symm ▸ List.mem_cons_self c t) ha
    | cons c2 t2 =>
      simp only [List.cons_append] at h
      injection h with h1 h2
      have ht : '|' ∉ t := fun hm => ha (List.mem_cons_of_mem c hm)
      have ht2 : '|' ∉ t2 := fun hm => ha2 (List.mem_cons_of_mem c2 hm)
      obtain ⟨e1, e2⟩ := ih b t2 b2 ht ht2 h2
      exact ⟨by rw [h1, e1], e2⟩

/-- Splitting a joined key of separator-free components recovers them. -/
theorem splitSep_pairKey (a b : List Char) (ha : '|' ∉ a) (hb : '|' ∉ b) :
    splitSep '|' (pairKey (a, b)) = [a, b] := by
  unfold pairKey
  rw [splitSep_append '|' a b ha, splitSep_not_mem '|' b hb]

/-- The sorted pair is one of the two arrangements. -/
theorem sortPair_cases (a b : List Char) : sortPair a b = (a, b) ∨ sortPair a b = (b, a) := by
  unfold sortPair
  by_cases h : lexLe a b = true
  · rw [if_pos h]; exact Or.inl rfl
  · rw [if_neg h]; exact Or.inr rfl

/-- Equal sorted-pair keys of separator-free strings come from the same
unordered pair. -/
theorem pairKey_sortPair_eq (x y x2 y2 : List Char)
    (hx : '|' ∉ x) (hy : '|' ∉ y) (hx2 : '|' ∉ x2) (hy2 : '|' ∉ y2)
    (h : pairKey (sortPair x y) = pairKey (sortPair x2 y2)) :
    (x = x2 ∧ y = y2) ∨ (x = y2 ∧ y = x2) := by
  rcases sortPair_cases x y with h1 | h1 <;> rcases sortPair_cases x2 y2 with h2 | h2 <;>
    rw [h1, h2] at h
  · exact Or.inl (pairKey_inj x y x2 y2 hx hx2 h)
  · exact Or.inr (pairKey_inj x y y2 x2 hx hy2 h)
  · obtain ⟨e1, e2⟩ := pairKey_inj y x x2 y2 hy hx2 h
    exact Or.inr ⟨e2, e1⟩
  · obtain ⟨e1, e2⟩ := pairKey_inj y x y2 x2 hy hy2 h
    exact Or.inl ⟨e2, e1⟩

/-- Index pairs are monotone with respect to sublists. -/
theorem allPairs_sublist {α : Type} : ∀ (l' l : List α), l'.Sublist l →
    (allPairs l').Sublist (allPairs l) := by
  intro l' l hsub
  induction hsub with
  | slnil => exact List.Sublist.slnil
  | @cons l' l b hsub ih =>
    simp only [allPairs]
    exact ih.trans (List.sublist_append_right _ _)
  | @cons₂ l' l b hsub ih =>
    simp only [allPairs]
    exact List.Sublist.append (hsub.map _) ih

/-- Components of an index pair are members, and are distinct when the
list has no duplicates. -/
theorem allPairs_mem {α : Type} : ∀ (l : List α) (p : α × α), p ∈ allPairs l →
    p.1 ∈ l ∧ p.2 ∈ l ∧ (l.Nodup → p.1 ≠ p.2) := by
  intro l
  induction l with
  | nil => intro p hp; simp [allPairs] at hp
  | cons a t ih =>
    intro p hp
    simp only [allPairs, List.mem_append] at hp
    rcases hp with hp | hp
    · rcases List.mem_map.mp hp with ⟨b, hb, hpb⟩
      subst hpb
      refine ⟨List.mem_cons_self a t, List.mem_cons_of_mem a hb, ?_⟩
      intro hnd heq
      have heq2 : a = b := heq
      exact (List.nodup_cons.mp hnd).1 (heq2 ▸ hb)
    · obtain ⟨h1, h2, h3⟩ := ih p hp
      exact ⟨List.mem_cons_of_mem a h1, List.mem_cons_of_mem a h2,
        fun hnd => h3 (List.nodup_cons.mp hnd).2⟩

/-- The sorted-pair keys over all index pairs of a duplicate-free,
separator-free name list are pairwise distinct. -/
theorem allPairs_keys_nodup (l : List (List Char)) (hnd : l.Nodup)
    (hp : ∀ x ∈ l, '|' ∉ x) :
    ((allPairs l).map (fun p => pairKey (sortPair p.1 p.2))).Nodup := by
  induction l with
  | nil => simp [allPairs]
  | cons a t ih =>
    have hnda : a ∉ t := (List.nodup_cons.mp hnd).1
    have hndt : t.Nodup := (List.nodup_cons.mp hnd).2
    have hpa : '|' ∉ a := hp a (List.mem_cons_self a t)
    have hpt : ∀ x ∈ t, '|' ∉ x := fun x hx => hp x (List.mem_cons_of_mem a hx)
    simp only [allPairs, List.map_append, List.map_map]
    apply List.Nodup.append
    · apply List.Nodup.map_on ?_ hndt
      intro x hx y hy hxy
      rcases pairKey_sortPair_eq a x a y hpa (hpt x hx) hpa (hpt y hy) hxy with h1 | h1
      · exact h1.2
      · exact absurd (h1.1 ▸ hy) hnda
    · exact ih hndt hpt
    · intro k hk1 hk2
      rcases List.mem_map.mp hk1 with ⟨x, hx, hkx⟩
      rcases List.mem_map.mp hk2 with ⟨q, hq, hkq⟩
      obtain ⟨hq1, hq2, _⟩ := allPairs_mem t q hq
      have hcomp : pairKey (sortPair a x) = pairKey (sortPair q.1 q.2) := by
        rw [show pairKey (sortPair a x) = k from hkx, ← hkq]
      rcases pairKey_sortPair_eq a x q.1 q.2 hpa (hpt x hx) (hpt q.1 hq1) (hpt q.2 hq2)
          hcomp with h1 | h1
      · exact hnda (h1.1 ▸ hq1)
      · exact hnda (h1.1 ▸ hq2)

/-- Membership in a JS set after `add`. -/
theorem mem_addToBasketSet (x d : List Char) (s : List (List Char))
    (h : d ∈ addToBasketSet x s) : d ∈ s ∨ d = x := by
  unfold addToBasketSet at h
  by_cases hx : x ∈ s
  · rw [if_pos hx] at h
    exact Or.inl h
  · rw [if_neg hx] at h
    rcases List.mem_append.mp h with h1 | h1
    · exact Or.inl h1
    · exact Or.inr (List.mem_singleton.mp h1)

/-- Every item of every built basket is some transaction's description. -/
theorem buildBaskets_items (ts : List BasketTx) :
    ∀ kv ∈ buildBaskets ts, ∀ d ∈ kv.2, ∃ t ∈ ts, d = t.Description := by
  unfold buildBaskets
  apply foldl_preserve_mem (fun acc => ∀ kv ∈ acc, ∀ d ∈ kv.2, ∃ t ∈ ts, d = t.Description)
    (fun acc t => upsertWith t.InvoiceID (fun o => addToBasketSet t.Description (o.getD [])) acc)
    ts ?_ [] (by simp)
  intro acc t ht hacc kv hkv d hd
  rcases mem_upsertWith _ _ acc kv hkv with h1 | ⟨_, h2 | ⟨v, hv, h2⟩⟩
  · exact hacc kv h1 d hd
  · rw [h2] at hd
    rcases mem_addToBasketSet _ _ _ hd with h3 | h3
    · simp at h3
    · exact ⟨t, ht, h3⟩
  · rw [h2] at hd
    rcases mem_addToBasketSet _ _ _ hd with h3 | h3
    · exact hacc (t.InvoiceID, v) hv d h3
    · exact ⟨t, ht, h3⟩

/-- A property of all basket items transfers to all item-count keys. -/
theorem itemCounts_keys_prop (P : List Char → Prop) (baskets : List (List (List Char)))
    (hb : ∀ b ∈ baskets, ∀ i ∈ b, P i) :
    ∀ kv ∈ itemCounts baskets, P kv.1 := by
  unfold itemCounts
  have hstep : ∀ (acc : List (List Char × Nat)) (basket : List (List Char)),
      basket ∈ baskets → (∀ kv ∈ acc, P kv.1) →
      ∀ kv ∈ basket.foldl (fun a i => upsertWith i (fun o => o.getD 0 + 1) a) acc, P kv.1 := by
    intro acc basket hbasket hacc
    refine foldl_preserve_mem (fun a => ∀ kv ∈ a, P kv.1)
      (fun a i => upsertWith i (fun o => o.getD 0 + 1) a) basket ?_ acc hacc
    intro a i hi ha kv hkv
    rcases mem_upsertWith _ _ a kv hkv with h1 | h2
    · exact ha kv h1
    · exact h2.1 ▸ hb basket hbasket i hi
  exact foldl_preserve_mem (fun acc => ∀ kv ∈ acc, P kv.1)
    (fun acc basket => basket.foldl (fun a i => upsertWith i (fun o => o.getD 0 + 1) a) acc)
    baskets hstep [] (by simp)

/-- Item-count keys are pairwise distinct. -/
theorem itemCounts_keys_nodup (baskets : List (List (List Char))) :
    ((itemCounts baskets).map Prod.fst).Nodup := by
  unfold itemCounts
  apply foldl_preserve_mem (fun acc : List (List Char × Nat) => (acc.map Prod.fst).Nodup)
    (fun acc basket => basket.foldl (fun a i => upsertWith i (fun o => o.getD 0 + 1) a) acc)
    baskets ?_ [] (by simp)
  intro acc basket _ hacc
  apply foldl_preserve_mem (fun a : List (List Char × Nat) => (a.map Prod.fst).Nodup)
    (fun a i => upsertWith i (fun o => o.getD 0 + 1) a) basket ?_ acc hacc
  intro a i _ ha
  exact upsertWith_keys_nodup i _ a ha

/-- Under the no-`'|'` precondition, every item name is `'|'`-free. -/
theorem mbaSupports_keys_pipe (ts : List BasketTx) (hp : ∀ t ∈ ts, '|' ∉ t.Description) :
    ∀ kv ∈ mbaSupports ts, '|' ∉ kv.1 := by
  have hb : ∀ b ∈ mbaBaskets ts, ∀ i ∈ b, '|' ∉ i := by
    intro b hb i hi
    rcases List.mem_map.mp hb with ⟨kv0, hkv0, hb0⟩
    obtain ⟨t, ht, hdt⟩ := buildBaskets_items ts kv0 hkv0 i (hb0 ▸ hi)
    exact hdt ▸ hp t ht
  exact itemCounts_keys_prop (fun x => '|' ∉ x) (mbaBaskets ts) hb

/-- Frequent-item lists shrink (as sublists) when the support threshold
rises. -/
theorem mbaFrequentItems_sublist (ts : List BasketTx) (s1 s2 : ℚ) (h : s1 ≤ s2) :
    (mbaFrequentItems ts s2).Sublist (mbaFrequentItems ts s1) := by
  unfold mbaFrequentItems sortDescBy
  apply insertionSort_sublist
  · intro a b
    exact le_total b.support a.support
  · intro a b c hab hbc
    exact le_trans hbc hab
  · apply filter_sublist_of_imp
    intro a ha
    rw [decide_eq_true_eq] at ha ⊢
    exact le_trans h ha

/-- The frequent-item list is a permutation of the filtered support list. -/
theorem mbaFrequentItems_perm (ts : List BasketTx) (s : ℚ) :
    (mbaFrequentItems ts s).Perm
      (((mbaSupports ts).map
          (fun kv => { item := kv.1, support := (kv.2 : ℚ) / mbaN ts : FrequentItem })).filter
        (fun i => decide (s ≤ i.support))) :=
  List.perm_insertionSort _ _

/-- Every frequent item name is an item-count key. -/
theorem mbaNames_mem_keys (ts : List BasketTx) (s : ℚ) :
    ∀ x ∈ mbaNames ts s, x ∈ (mbaSupports ts).map Prod.fst := by
  intro x hx
  rcases List.mem_map.mp hx with ⟨fi, hfi, hfx⟩
  have hfi2 := (mbaFrequentItems_perm ts s).mem_iff.mp hfi
  have hfi3 := List.mem_of_mem_filter hfi2
  rcases List.mem_map.mp hfi3 with ⟨kv, hkv, hkvf⟩
  have : fi.item = kv.1 := by rw [← hkvf]
  rw [← hfx, this]
  exact List.mem_map_of_mem Prod.fst hkv

/-- Frequent item names are pairwise distinct. -/
theorem mbaNames_nodup (ts : List BasketTx) (s : ℚ) : (mbaNames ts s).Nodup := by
  unfold mbaNames
  have hperm := (mbaFrequentItems_perm ts s).map (·.item)
  rw [List.Perm.nodup_iff hperm]
  have hsub : ((((mbaSupports ts).map
      (fun kv => { item := kv.1, support := (kv.2 : ℚ) / mbaN ts : FrequentItem })).filter
        (fun i => decide (s ≤ i.support))).map (·.item)).Sublist
      ((((mbaSupports ts).map
        (fun kv => { item := kv.1, support := (kv.2 : ℚ) / mbaN ts : FrequentItem }))).map (·.item)) :=
    (List.filter_sublist _).map _
  apply List.Nodup.sublist hsub
  rw [List.map_map]
  exact itemCounts_keys_nodup _

/-- Frequent item names are `'|'`-free under the precondition. -/
theorem mbaNames_pipe (ts : List BasketTx) (s : ℚ) (hp : ∀ t ∈ ts, '|' ∉ t.Description) :
    ∀ x ∈ mbaNames ts s, '|' ∉ x := by
  intro x hx
  rcases List.mem_map.mp (mbaNames_mem_keys ts s x hx) with ⟨kv, hkv, hfst⟩
  exact hfst ▸ mbaSupports_keys_pipe ts hp kv hkv

/-- Frequent item names shrink (as sublists) when the threshold rises. -/
theorem mbaNames_sublist (ts : List BasketTx) (s1 s2 : ℚ) (h : s1 ≤ s2) :
    (mbaNames ts s2).Sublist (mbaNames ts s1) :=
  (mbaFrequentItems_sublist ts s1 s2 h).map _

/-- With `'|'`-free, duplicate-free names all candidate keys are fresh, so
the candidate object is the literal pair list. -/
theorem candidateObj_eq (names : List (List Char)) (hnd : names.Nodup)
    (hp : ∀ x ∈ names, '|' ∉ x) :
    candidateObj names = (allPairs names).map
      (fun p => (pairKey (sortPair p.1 p.2), (sortPair p.1 p.2, 0))) := by
  unfold candidateObj
  have h := foldl_upsertWith_fresh (fun p : List Char × List Char => pairKey (sortPair p.1 p.2))
    (fun p => (sortPair p.1 p.2, (0 : Nat))) (allPairs names) [] (by simp)
    (allPairs_keys_nodup names hnd hp)
  simpa using h

/-- Characterization of the counted candidate entries under the
precondition: each is keyed by its own sorted pair. -/
theorem mbaCounted_eq (ts : List BasketTx) (s : ℚ) (hp : ∀ t ∈ ts, '|' ∉ t.Description) :
    mbaCounted ts s = (allPairs (mbaNames ts s)).map
      (fun p => (pairKey (sortPair p.1 p.2),
        (sortPair p.1 p.2, countPair (mbaBaskets ts) (sortPair p.1 p.2)))) := by
  unfold mbaCounted
  rw [candidateObj_eq (mbaNames ts s) (mbaNames_nodup ts s) (mbaNames_pipe ts s hp)]
  rw [List.map_map]
  rfl

/-- Under the precondition the frequent-pair entries are the filtered
counted entries, re-keyed by (identical) joined keys. -/
theorem mbaPairSets_eq (ts : List BasketTx) (s : ℚ) (hp : ∀ t ∈ ts, '|' ∉ t.Description) :
    mbaPairSets ts s = ((mbaCounted ts s).filter
        (fun kv => decide (s ≤ (kv.2.2 : ℚ) / mbaN ts))).map
      (fun kv => (pairKey kv.2.1, kv.2.2)) := by
  unfold mbaPairSets
  have h := foldl_upsertWith_fresh
    (fun kv : List Char × ((List Char × List Char) × Nat) => pairKey kv.2.1)
    (fun kv => kv.2.2)
    ((mbaCounted ts s).filter (fun kv => decide (s ≤ (kv.2.2 : ℚ) / mbaN ts))) [] (by simp) ?_
  · simpa using h
  · have hkeys : ∀ kv ∈ mbaCounted ts s, pairKey kv.2.1 = kv.1 := by
      rw [mbaCounted_eq ts s hp]
      intro kv hkv
      rcases List.mem_map.mp hkv with ⟨p, _, hpe⟩
      rw [← hpe]
    have he : (((mbaCounted ts s).filter
        (fun kv => decide (s ≤ (kv.2.2 : ℚ) / mbaN ts))).map
          (fun kv => pairKey kv.2.1)) = (((mbaCounted ts s).filter
        (fun kv => decide (s ≤ (kv.2.2 : ℚ) / mbaN ts))).map Prod.fst) := by
      apply List.map_congr_left
      intro kv hkv
      exact hkeys kv (List.mem_of_mem_filter hkv)
    rw [he]
    apply List.Nodup.sublist ((List.filter_sublist _).map _)
    rw [mbaCounted_eq ts s hp, List.map_map]
    have he2 : ((fun x : List Char × ((List Char × List Char) × Nat) => x.1) ∘
        (fun p : List Char × List Char => (pairKey (sortPair p.1 p.2),
          (sortPair p.1 p.2, countPair (mbaBaskets ts) (sortPair p.1 p.2))))) =
        fun p : List Char × List Char => pairKey (sortPair p.1 p.2) := rfl
    rw [he2]
    exact allPairs_keys_nodup (mbaNames ts s) (mbaNames_nodup ts s) (mbaNames_pipe ts s hp)

/-- Under the precondition the re-add of 1-items appends: pair keys contain
`'|'`, item keys do not. -/
theorem mbaItemsets_eq (ts : List BasketTx) (s : ℚ) (hp : ∀ t ∈ ts, '|' ∉ t.Description) :
    mbaItemsets ts s = mbaPairSets ts s ++ mbaSupports ts := by
  unfold mbaItemsets
  have h := foldl_upsertWith_fresh (fun kv : List Char × Nat => kv.1) (fun kv => kv.2)
    (mbaSupports ts) (mbaPairSets ts s) ?_ ?_
  · rw [h]
    congr 1
    simp
  · intro kv hkv hmem
    rcases List.mem_map.mp hmem with ⟨kv2, hkv2, hfst⟩
    have hpipe1 : '|' ∉ kv.1 := mbaSupports_keys_pipe ts hp kv hkv
    rw [mbaPairSets_eq ts s hp] at hkv2
    rcases List.mem_map.mp hkv2 with ⟨kv3, _, hkv3⟩
    have hmem2 : '|' ∈ kv2.1 := by
      rw [← hkv3]
      exact pipe_mem_pairKey _
    have hfst2 : kv2.1 = kv.1 := hfst
    exact hpipe1 (hfst2 ▸ hmem2)
  · exact itemCounts_keys_nodup _

/-! ## C8: monotonicity in the support threshold -/

/-- C8 counterexample: with item names containing `'|'`, two distinct
candidate pairs can collide on the joined key (here `{a, b|c}` and
`{a|b, c}` both give `a|b|c`), and the stored pair is the later writer; on
this 5-basket input raising `minSupport` from 0 to 1/2 removes the
colliding later pair from the candidates, changes the stored count of the
key from 0 to 3, and the rule count rises from 4 to 5. -/
theorem c8_counterexample :
    ((0 : ℚ) ≤ 1/2) ∧
      (calculateMBA
        [⟨("1").data, ("a").data⟩, ⟨("1").data, ("b|c").data⟩,
         ⟨("2").data, ("a").data⟩, ⟨("2").data, ("b|c").data⟩,
         ⟨("3").data, ("a").data⟩, ⟨("3").data, ("b|c").data⟩,
         ⟨("4").data, ("a|b").data⟩, ⟨("4").data, ("b").data⟩,
         ⟨("5").data, ("c").data⟩, ⟨("5").data, ("b").data⟩]
        0 (1/2) 0).rules.length = 4 ∧
      (calculateMBA
        [⟨("1").data, ("a").data⟩, ⟨("1").data, ("b|c").data⟩,
         ⟨("2").data, ("a").data⟩, ⟨("2").data, ("b|c").data⟩,
         ⟨("3").data, ("a").data⟩, ⟨("3").data, ("b|c").data⟩,
         ⟨("4").data, ("a|b").data⟩, ⟨("4").data, ("b").data⟩,
         ⟨("5").data, ("c").data⟩, ⟨("5").data, ("b").data⟩]
        (1/2) (1/2) 0).rules.length = 5 := by
  refine ⟨by norm_num, ?_, ?_⟩
  · decide
  · decide

/-- C8 (amended): when no `Description` contains `'|'` (so no candidate
keys collide), raising `minSupport` never increases the frequent-item or
rule counts, and the higher-threshold lists are subsets of the
lower-threshold ones. -/
theorem c8_mba_monotonicity_amended (ts : List BasketTx) (minConf minLift s1 s2 : ℚ)
    (hp : ∀ t ∈ ts, '|' ∉ t.Description) (h12 : s1 ≤ s2) :
    (calculateMBA ts s2 minConf minLift).frequentItems.length ≤
        (calculateMBA ts s1 minConf minLift).frequentItems.length ∧
      (calculateMBA ts s2 minConf minLift).rules.length ≤
        (calculateMBA ts s1 minConf minLift).rules.length ∧
      (∀ fi ∈ (calculateMBA ts s2 minConf minLift).frequentItems,
        fi ∈ (calculateMBA ts s1 minConf minLift).frequentItems) ∧
      (∀ r ∈ (calculateMBA ts s2 minConf minLift).rules,
        r ∈ (calculateMBA ts s1 minConf minLift).rules) := by
  have hfreqsub := mbaFrequentItems_sublist ts s1 s2 h12
  have hnames := mbaNames_sublist ts s1 s2 h12
  have hcounted : (mbaCounted ts s2).Sublist (mbaCounted ts s1) := by
    rw [mbaCounted_eq ts s2 hp, mbaCounted_eq ts s1 hp]
    exact (allPairs_sublist _ _ hnames).map _
  have hfilter : ((mbaCounted ts s2).filter
      (fun kv => decide (s2 ≤ (kv.2.2 : ℚ) / mbaN ts))).Sublist
      ((mbaCounted ts s1).filter (fun kv => decide (s1 ≤ (kv.2.2 : ℚ) / mbaN ts))) := by
    refine (hcounted.filter _).trans (filter_sublist_of_imp _ _ ?_ _)
    intro kv hkv
    rw [decide_eq_true_eq] at hkv ⊢
    exact le_trans h12 hkv
  have hpairsets : (mbaPairSets ts s2).Sublist (mbaPairSets ts s1) := by
    rw [mbaPairSets_eq ts s2 hp, mbaPairSets_eq ts s1 hp]
    exact hfilter.map _
  have hitemsets : (mbaItemsets ts s2).Sublist (mbaItemsets ts s1) := by
    rw [mbaItemsets_eq ts s2 hp, mbaItemsets_eq ts s1 hp]
    exact List.Sublist.append hpairsets (List.Sublist.refl _)
  have hrules0 : (mbaRules ts s2 minConf minLift).Sublist (mbaRules ts s1 minConf minLift) := by
    unfold mbaRules
    rw [foldl_append_flatMap, foldl_append_flatMap]
    simp only [List.nil_append]
    exact sublist_flatMap _ hitemsets
  have hlenr : ∀ s, (calculateMBA ts s minConf minLift).rules.length =
      (mbaRules ts s minConf minLift).length := by
    intro s
    show (sortDescBy (fun r => r.lift) (mbaRules ts s minConf minLift)).length = _
    exact (List.perm_insertionSort _ _).length_eq
  have hmemr : ∀ s r, r ∈ (calculateMBA ts s minConf minLift).rules ↔
      r ∈ mbaRules ts s minConf minLift := by
    intro s r
    show r ∈ sortDescBy (fun r => r.lift) (mbaRules ts s minConf minLift) ↔ _
    exact (List.perm_insertionSort _ _).mem_iff
  refine ⟨hfreqsub.length_le, ?_, fun fi hfi => hfreqsub.subset hfi, ?_⟩
  · rw [hlenr s1, hlenr s2]
    exact hrules0.length_le
  · intro r hr
    exact (hmemr s1 r).mpr (hrules0.subset ((hmemr s2 r).mp hr))

/-- Witness for C8 (amended) on the Bread/Milk example with thresholds
1/4 ≤ 3/4. -/
theorem c8_witness :
    (calculateMBA [⟨("1").data, ("Bread").data⟩, ⟨("1").data, ("Milk").data⟩,
        ⟨("2").data, ("Bread").data⟩] (3/4) (1/2) 1).frequentItems.length ≤
      (calculateMBA [⟨("1").data, ("Bread").data⟩, ⟨("1").data, ("Milk").data⟩,
        ⟨("2").data, ("Bread").data⟩] (1/4) (1/2) 1).frequentItems.length ∧
    (calculateMBA [⟨("1").data, ("Bread").data⟩, ⟨("1").data, ("Milk").data⟩,
        ⟨("2").data, ("Bread").data⟩] (3/4) (1/2) 1).rules.length ≤
      (calculateMBA [⟨("1").data, ("Bread").data⟩, ⟨("1").data, ("Milk").data⟩,
        ⟨("2").data, ("Bread").data⟩] (1/4) (1/2) 1).rules.length ∧
    (∀ fi ∈ (calculateMBA [⟨("1").data, ("Bread").data⟩, ⟨("1").data, ("Milk").data⟩,
        ⟨("2").data, ("Bread").data⟩] (3/4) (1/2) 1).frequentItems,
      fi ∈ (calculateMBA [⟨("1").data, ("Bread").data⟩, ⟨("1").data, ("Milk").data⟩,
        ⟨("2").data, ("Bread").data⟩] (1/4) (1/2) 1).frequentItems) ∧
    (∀ r ∈ (calculateMBA [⟨("1").data, ("Bread").data⟩, ⟨("1").data, ("Milk").data⟩,
        ⟨("2").data, ("Bread").data⟩] (3/4) (1/2) 1).rules,
      r ∈ (calculateMBA [⟨("1").data, ("Bread").data⟩, ⟨("1").data, ("Milk").data⟩,
        ⟨("2").data, ("Bread").data⟩] (1/4) (1/2) 1).rules) :=
  c8_mba_monotonicity_amended
    [⟨("1").data, ("Bread").data⟩, ⟨("1").data, ("Milk").data⟩, ⟨("2").data, ("Bread").data⟩]
    (1/2) 1 (1/4) (3/4) (by decide) (by norm_num)

/-! ## C10: rule invariants under the no-separator precondition -/

/-- C10: when no `Description` contains `'|'`, every returned association
rule has distinct antecedent and consequent, both appearing in the returned
frequent 1-itemset list, and rule support at least `minSupport`. -/
theorem c10_mba_rule_invariants (ts : List BasketTx) (minSupport minConf minLift : ℚ)
    (hp : ∀ t ∈ ts, '|' ∉ t.Description) :
    ∀ r ∈ (calculateMBA ts minSupport minConf minLift).rules,
      r.antecedent ≠ r.consequent ∧
        (∃ fi ∈ (calculateMBA ts minSupport minConf minLift).frequentItems,
          fi.item = r.antecedent) ∧
        (∃ fi ∈ (calculateMBA ts minSupport minConf minLift).frequentItems,
          fi.item = r.consequent) ∧
        minSupport ≤ r.support := by
  intro r hr
  have hr2 : r ∈ mbaRules ts minSupport minConf minLift := by
    have : r ∈ sortDescBy (fun r => r.lift) (mbaRules ts minSupport minConf minLift) := hr
    exact (List.perm_insertionSort _ _).mem_iff.mp this
  unfold mbaRules at hr2
  rw [foldl_append_flatMap] at hr2
  simp only [List.nil_append] at hr2
  rcases List.mem_flatMap.mp hr2 with ⟨kv, hkv, hrkv⟩
  rw [mbaItemsets_eq ts minSupport hp] at hkv
  have hnamefact : ∀ x ∈ mbaNames ts minSupport,
      ∃ fi ∈ (calculateMBA ts minSupport minConf minLift).frequentItems, fi.item = x := by
    intro x hx
    rcases List.mem_map.mp hx with ⟨fi, hfi, hfx⟩
    exact ⟨fi, hfi, hfx⟩
  rcases List.mem_append.mp hkv with hkvp | hkvi
  · -- a frequent-pair entry
    rw [mbaPairSets_eq ts minSupport hp] at hkvp
    rcases List.mem_map.mp hkvp with ⟨kv0, hkv0f, hkve⟩
    have hpred : minSupport ≤ (kv0.2.2 : ℚ) / mbaN ts := by
      have := List.of_mem_filter hkv0f
      rwa [decide_eq_true_eq] at this
    have hkv0c : kv0 ∈ mbaCounted ts minSupport := List.mem_of_mem_filter hkv0f
    rw [mbaCounted_eq ts minSupport hp] at hkv0c
    rcases List.mem_map.mp hkv0c with ⟨p, hpA, hpe⟩
    obtain ⟨hp1, hp2, hpne⟩ := allPairs_mem _ p hpA
    have hne := hpne (mbaNames_nodup ts minSupport)
    have hu1 : '|' ∉ p.1 := mbaNames_pipe ts minSupport hp p.1 hp1
    have hu2 : '|' ∉ p.2 := mbaNames_pipe ts minSupport hp p.2 hp2
    obtain ⟨u, v, hsp, huv⟩ : ∃ u v, sortPair p.1 p.2 = (u, v) ∧
        ((u = p.1 ∧ v = p.2) ∨ (u = p.2 ∧ v = p.1)) := by
      rcases sortPair_cases p.1 p.2 with h1 | h1
      · exact ⟨p.1, p.2, h1, Or.inl ⟨rfl, rfl⟩⟩
      · exact ⟨p.2, p.1, h1, Or.inr ⟨rfl, rfl⟩⟩
    have humem : u ∈ mbaNames ts minSupport := by
      rcases huv with ⟨h1, _⟩ | ⟨h1, _⟩
      · exact h1 ▸ hp1
      · exact h1 ▸ hp2
    have hvmem : v ∈ mbaNames ts minSupport := by
      rcases huv with ⟨_, h2⟩ | ⟨_, h2⟩
      · exact h2 ▸ hp2
      · exact h2 ▸ hp1
    have hunev : u ≠ v := by
      rcases huv with ⟨h1, h2⟩ | ⟨h1, h2⟩
      · rw [h1, h2]; exact hne
      · rw [h1, h2]; exact hne.symm
    have hupipe : '|' ∉ u := by
      rcases huv with ⟨h1, _⟩ | ⟨h1, _⟩
      · exact h1 ▸ hu1
      · exact h1 ▸ hu2
    have hvpipe : '|' ∉ v := by
      rcases huv with ⟨_, h2⟩ | ⟨_, h2⟩
      · exact h2 ▸ hu2
      · exact h2 ▸ hu1
    have hkv0e : kv0.2.1 = sortPair p.1 p.2 := by rw [← hpe]
    have hkve1 : kv.1 = pairKey (u, v) := by
      rw [← hkve]
      show pairKey kv0.2.1 = pairKey (u, v)
      rw [hkv0e, hsp]
    have hkve2 : kv.2 = kv0.2.2 := by rw [← hkve]
    unfold genRules at hrkv
    rw [hkve1] at hrkv
    rw [splitSep_pairKey u v hupipe hvpipe] at hrkv
    simp only [List.length_cons, List.length_singleton, List.getD_cons_zero,
      List.getD_cons_succ] at hrkv
    rw [if_pos (by omega)] at hrkv
    rcases hga : assocGet u (mbaSupports ts) with _ | ca
    · rw [hga] at hrkv
      simp at hrkv
    · rcases hgb : assocGet v (mbaSupports ts) with _ | cb
      · rw [hga, hgb] at hrkv
        simp at hrkv
      · rw [hga, hgb] at hrkv
        simp only [] at hrkv
        rcases List.mem_append.mp hrkv with hA | hB
        · by_cases hcond : minConf ≤ (kv.2 : ℚ) / mbaN ts / ((ca : ℚ) / mbaN ts) ∧
              minLift ≤ (kv.2 : ℚ) / mbaN ts / ((ca : ℚ) / mbaN ts) / ((cb : ℚ) / mbaN ts)
          · rw [if_pos hcond] at hA
            rcases List.mem_singleton.mp hA with rfl
            refine ⟨hunev, hnamefact u humem, hnamefact v hvmem, ?_⟩
            show minSupport ≤ (kv.2 : ℚ) / mbaN ts
            rw [hkve2]
            exact hpred
          · rw [if_neg hcond] at hA
            simp at hA
        · by_cases hcond : minConf ≤ (kv.2 : ℚ) / mbaN ts / ((cb : ℚ) / mbaN ts) ∧
              minLift ≤ (kv.2 : ℚ) / mbaN ts / ((cb : ℚ) / mbaN ts) / ((ca : ℚ) / mbaN ts)
          · rw [if_pos hcond] at hB
            rcases List.mem_singleton.mp hB with rfl
            refine ⟨hunev.symm, hnamefact v hvmem, hnamefact u humem, ?_⟩
            show minSupport ≤ (kv.2 : ℚ) / mbaN ts
            rw [hkve2]
            exact hpred
          · rw [if_neg hcond] at hB
            simp at hB
  · -- a re-added 1-item entry generates no rules
    have hpipe : '|' ∉ kv.1 := mbaSupports_keys_pipe ts hp kv hkvi
    unfold genRules at hrkv
    rw [splitSep_not_mem '|' kv.1 hpipe] at hrkv
    simp at hrkv

/-- Witness for C10 at the concrete Bread-to-Milk rule of the spec's
end-to-end example. -/
theorem c10_witness :
    (AssociationRule.mk (("Bread").data) (("Milk").data) 1 1 1).antecedent ≠
        (AssociationRule.mk (("Bread").data) (("Milk").data) 1 1 1).consequent ∧
      (∃ fi ∈ (calculateMBA [⟨("1").data, ("Bread").data⟩, ⟨("1").data, ("Milk").data⟩,
          ⟨("2").data, ("Bread").data⟩, ⟨("2").data, ("Milk").data⟩] (1/2) (1/2) 1).frequentItems,
        fi.item = (AssociationRule.mk (("Bread").data) (("Milk").data) 1 1 1).antecedent) ∧
      (∃ fi ∈ (calculateMBA [⟨("1").data, ("Bread").data⟩, ⟨("1").data, ("Milk").data⟩,
          ⟨("2").data, ("Bread").data⟩, ⟨("2").data, ("Milk").data⟩] (1/2) (1/2) 1).frequentItems,
        fi.item = (AssociationRule.mk (("Bread").data) (("Milk").data) 1 1 1).consequent) ∧
      (1/2 : ℚ) ≤ (AssociationRule.mk (("Bread").data) (("Milk").data) 1 1 1).support :=
  c10_mba_rule_invariants
    [⟨("1").data, ("Bread").data⟩, ⟨("1").data, ("Milk").data⟩,
     ⟨("2").data, ("Bread").data⟩, ⟨("2").data, ("Milk").data⟩] (1/2) (1/2) 1 (by decide)
    (AssociationRule.mk (("Bread").data) (("Milk").data) 1 1 1) (by decide)
